import Mathlib

/-!
Verification of the swagger-docs-mcp core pipeline.

This file contains a shallow embedding, in Lean 4, of the parts of the
`wpsmith/wx-mcp-go` repository that the specification claims talk about:

* the tool registry (`pkg/server/registry.go`),
* the tool generator (`pkg/swagger/generator.go`),
* the endpoint extraction of the parser (`pkg/swagger/parser.go`),
* the outbound HTTP client (`pkg/http/client.go`: request building,
  authentication, retry loop),
* the stdio message handling and `tools/call` handler (`pkg/server/mcp.go`).

Modelling conventions:

* Go strings are modelled as `List Char` (`GoStr`); `len` is the list length.
  The byte/rune distinction of Go (UTF-8) is below the abstraction level of
  this model: all claims are about ASCII-level behaviour.
* Go maps decoded from JSON are modelled as association lists in document
  order; separate comments mark the places where Go map iteration order is
  non-deterministic.
* Go slice expressions `s[:n]` panic when `n` is out of range; they are
  modelled with the clamping `List.take`, and the theorems keep every use in
  range through their hypotheses.
* I/O is factored out: an outbound HTTP attempt is an element of
  `AttemptOutcome`, and a whole execution is parametrised by the sequence of
  outcomes `Nat → AttemptOutcome` (outcome of attempt 0, 1, ...).
* JSON numbers are restricted to integers; no claim depends on fractional
  values.  String escape sequences are not interpreted by the JSON reader;
  no claim depends on them.
-/

/-- Go strings, modelled as lists of characters. -/
abbrev GoStr := List Char

/-- The character class `[a-z0-9_]` of valid generated tool names. -/
def isClassChar (c : Char) : Bool :=
  ('a' ≤ c && c ≤ 'z') || ('0' ≤ c && c ≤ '9') || (c = '_')

/-- Model of `strings.ToLower` (ASCII). -/
def goToLower (s : GoStr) : GoStr := s.map Char.toLower

/-- Model of `strings.ToUpper` (ASCII). -/
def goToUpper (s : GoStr) : GoStr := s.map Char.toUpper

/-- Whitespace recognised by `strings.TrimSpace` (ASCII part). -/
def isWsChar (c : Char) : Bool := c = ' ' || c = '\t' || c = '\n' || c = '\r'

/-- Model of `strings.TrimSpace` (ASCII whitespace). -/
def goTrimSpace (s : GoStr) : GoStr :=
  ((s.dropWhile isWsChar).reverse.dropWhile isWsChar).reverse

/-- Model of `strings.Trim(s, cutset)`: remove the characters of `cutset` from both
ends of `s`. -/
def goTrimSet (cutset : List Char) (s : GoStr) : GoStr :=
  ((s.dropWhile (fun c => decide (c ∈ cutset))).reverse.dropWhile
    (fun c => decide (c ∈ cutset))).reverse

/-- Model of `strings.TrimSuffix(s, string(ch))` for a one-character suffix: remove one
trailing `ch` if present. -/
def trimSuffixChar (ch : Char) (s : GoStr) : GoStr :=
  if s.getLast? = some ch then s.dropLast else s

/-- Model of `strings.Split(s, string(sep))` for a one-character separator.
`splitOnChar sep []` is `[[]]`, like Go. -/
def splitOnChar (sep : Char) : GoStr → List GoStr
  | [] => [[]]
  | c :: rest =>
    match splitOnChar sep rest with
    | [] => [[]]
    | p :: ps => if c = sep then [] :: p :: ps else (c :: p) :: ps

/-- Model of `strings.Join(parts, string(sep))` for a one-character separator. -/
def joinSep (sep : Char) : List GoStr → GoStr
  | [] => []
  | [p] => p
  | p :: q :: ps => p ++ sep :: joinSep sep (q :: ps)

/-- Model of `strings.Join(parts, sep)` for a multi-character separator. -/
def joinStrSep (sep : GoStr) : List GoStr → GoStr
  | [] => []
  | [p] => p
  | p :: q :: ps => p ++ sep ++ joinStrSep sep (q :: ps)

/-- Model of `strings.Contains(s, sub)`. -/
def goContains (sub : GoStr) : GoStr → Bool
  | [] => sub.isEmpty
  | c :: rest => sub.isPrefixOf (c :: rest) || goContains sub rest

/-- Worker for `replaceAll`; the fuel is an upper bound on the number of
steps and is the length of the subject string. -/
def replaceAllGo (pat repl : GoStr) : Nat → GoStr → GoStr
  | _, [] => []
  | 0, s => s
  | fuel + 1, c :: rest =>
    if pat ≠ [] && pat.isPrefixOf (c :: rest) then
      repl ++ replaceAllGo pat repl fuel ((c :: rest).drop pat.length)
    else
      c :: replaceAllGo pat repl fuel rest

/-- Model of `strings.ReplaceAll(s, pat, repl)` (for the non-empty patterns the code
uses). -/
def replaceAll (pat repl s : GoStr) : GoStr := replaceAllGo pat repl s.length s

/-- Decimal digits of a natural number. -/
def natToStr (n : Nat) : GoStr := Nat.toDigits 10 n

/-- Decimal rendering of an integer (`fmt` style). -/
def intToStr (n : Int) : GoStr :=
  if n < 0 then '-' :: natToStr n.natAbs else natToStr n.natAbs

/-- Numeric value of a list of decimal digits. -/
def natOfDigits (ds : GoStr) : Nat :=
  ds.foldl (fun n c => 10 * n + (c.toNat - ('0').toNat)) 0

/-! ## JSON model

`JValue` is the in-memory form of decoded JSON, the counterpart of Go
`interface{}` values produced by `encoding/json`.  Objects are association
lists in document order (Go uses `map[string]interface{}`, whose iteration
order is random; the places relying on an order are marked). -/

/-- Decoded JSON values. -/
inductive JValue : Type
  | null : JValue
  | bool : Bool → JValue
  | num : Int → JValue
  | str : GoStr → JValue
  | arr : List JValue → JValue
  | obj : List (GoStr × JValue) → JValue

/-- Lookup in an association list with `GoStr` keys (Go map indexing). -/
def alistFind {α : Type} (m : List (GoStr × α)) (key : GoStr) : Option α :=
  match m.find? (fun kv => kv.1 == key) with
  | some kv => some kv.2
  | none => none

/-- Go map assignment `m[k] = v` on the association-list model. -/
def alistSet {α : Type} (m : List (GoStr × α)) (key : GoStr) (v : α) :
    List (GoStr × α) :=
  if (m.find? (fun kv => kv.1 == key)).isSome then
    m.map (fun kv => if kv.1 == key then (key, v) else kv)
  else m ++ [(key, v)]

/-- Field lookup on a JSON object. -/
def lookupJ (fields : List (GoStr × JValue)) (key : GoStr) : Option JValue :=
  alistFind fields key

/-- Go type assertion `.(string)` on a looked-up field (zero value on
failure, mirroring `if v, ok := m[k].(string); ok`). -/
def getStringField (m : List (GoStr × JValue)) (key : GoStr) : GoStr :=
  match lookupJ m key with
  | some (JValue.str s) => s
  | _ => []

/-- Go type assertion `.(bool)` on a looked-up field (zero value on
failure). -/
def getBoolField (m : List (GoStr × JValue)) (key : GoStr) : Bool :=
  match lookupJ m key with
  | some (JValue.bool b) => b
  | _ => false

/-- The object fields of a JSON value, when it is an object. -/
def jObjFields : JValue → Option (List (GoStr × JValue))
  | JValue.obj m => some m
  | _ => none

mutual

/-- Model of `fmt.Sprintf("%v", v)` for decoded JSON values.  The rendering of
composite values is simplified (no claim depends on it). -/
def jvalueToString : JValue → GoStr
  | JValue.null => ('<' :: ("nil").data) ++ ['>']
  | JValue.bool true => ("true").data
  | JValue.bool false => ("false").data
  | JValue.num n => intToStr n
  | JValue.str s => s
  | JValue.arr xs => '[' :: joinStrSep [' '] (jvaluesToStrings xs) ++ [']']
  | JValue.obj _ => ("map").data

/-- Renderings of a list of JSON values. -/
def jvaluesToStrings : List JValue → List GoStr
  | [] => []
  | v :: vs => jvalueToString v :: jvaluesToStrings vs

end

/-! ### JSON reader

A fuel-bounded recursive-descent reader defining which input lines count as
valid JSON in this model (the counterpart of a successful
`json.Unmarshal`). -/

/-- Skip JSON whitespace. -/
def skipWs (s : GoStr) : GoStr := s.dropWhile isWsChar

/-- Read a string literal body after the opening quote; returns the content
and the rest after the closing quote. -/
def readStringLit : GoStr → Option (GoStr × GoStr)
  | [] => none
  | c :: rest =>
    if c = '"' then some ([], rest)
    else
      match readStringLit rest with
      | some (s, r) => some (c :: s, r)
      | none => none

/-- Read a non-empty run of decimal digits. -/
def readDigits (s : GoStr) : Option (Nat × GoStr) :=
  let ds := s.takeWhile Char.isDigit
  if ds.isEmpty then none else some (natOfDigits ds, s.drop ds.length)

mutual

/-- Read one JSON value. -/
def readValue : Nat → GoStr → Option (JValue × GoStr)
  | 0, _ => none
  | fuel + 1, s =>
    match skipWs s with
    | [] => none
    | c :: rest =>
      if c = '"' then
        match readStringLit rest with
        | some (str, r) => some (JValue.str str, r)
        | none => none
      else if c = '{' then readObjectBody fuel rest
      else if c = '[' then readArrayBody fuel rest
      else if c = '-' then
        match readDigits rest with
        | some (n, r) => some (JValue.num (-(n : Int)), r)
        | none => none
      else if c.isDigit then
        match readDigits (c :: rest) with
        | some (n, r) => some (JValue.num (n : Int), r)
        | none => none
      else if ("null").data.isPrefixOf (c :: rest) then
        some (JValue.null, (c :: rest).drop 4)
      else if ("true").data.isPrefixOf (c :: rest) then
        some (JValue.bool true, (c :: rest).drop 4)
      else if ("false").data.isPrefixOf (c :: rest) then
        some (JValue.bool false, (c :: rest).drop 5)
      else none

/-- Read the items of an array, right after the opening bracket. -/
def readArrayBody : Nat → GoStr → Option (JValue × GoStr)
  | 0, _ => none
  | fuel + 1, s =>
    match skipWs s with
    | ']' :: rest => some (JValue.arr [], rest)
    | s' =>
      match readItems fuel s' with
      | some (items, r) => some (JValue.arr items, r)
      | none => none

/-- Read one or more comma-separated array items ending with `]`. -/
def readItems : Nat → GoStr → Option (List JValue × GoStr)
  | 0, _ => none
  | fuel + 1, s =>
    match readValue fuel s with
    | none => none
    | some (v, r) =>
      match skipWs r with
      | ',' :: r2 =>
        match readItems fuel r2 with
        | some (vs, r3) => some (v :: vs, r3)
        | none => none
      | ']' :: r2 => some ([v], r2)
      | _ => none

/-- Read the members of an object, right after the opening brace. -/
def readObjectBody : Nat → GoStr → Option (JValue × GoStr)
  | 0, _ => none
  | fuel + 1, s =>
    match skipWs s with
    | '}' :: rest => some (JValue.obj [], rest)
    | s' =>
      match readMembers fuel s' with
      | some (fields, r) => some (JValue.obj fields, r)
      | none => none

/-- Read one or more comma-separated object members ending with `}`. -/
def readMembers : Nat → GoStr → Option (List (GoStr × JValue) × GoStr)
  | 0, _ => none
  | fuel + 1, s =>
    match skipWs s with
    | '"' :: rest =>
      match readStringLit rest with
      | none => none
      | some (key, r) =>
        match skipWs r with
        | ':' :: r2 =>
          match readValue fuel r2 with
          | none => none
          | some (v, r3) =>
            match skipWs r3 with
            | ',' :: r4 =>
              match readMembers fuel r4 with
              | some (fields, r5) => some ((key, v) :: fields, r5)
              | none => none
            | '}' :: r4 => some ([(key, v)], r4)
            | _ => none
        | _ => none
    | _ => none

end

/-- Parse a whole string as one JSON value (trailing content allowed only
when it is whitespace, as with `json.Unmarshal`). -/
def parseJson (s : GoStr) : Option JValue :=
  match readValue (s.length + 1) s with
  | some (v, rest) => if skipWs rest = [] then some v else none
  | none => none

/-! ## Swagger data model (`pkg/types/swagger.go`) -/

/-- One operation parameter (`types.SwaggerParameter`).  The Go field `In`
is called `location` here (`in` is reserved in Lean). -/
structure SwaggerParameter where
  name : GoStr
  location : GoStr
  description : GoStr
  required : Bool
  schema : Option JValue
  exampleValue : Option JValue

/-- One HTTP operation extracted from a document
(`types.SwaggerEndpoint`). -/
structure SwaggerEndpoint where
  path : GoStr
  method : GoStr
  operationID : GoStr
  summary : GoStr
  description : GoStr
  tags : List GoStr
  parameters : List SwaggerParameter
  requestBody : Option JValue
  responses : List (GoStr × JValue)
  deprecated : Bool
  mcpToolName : GoStr

/-- Metadata of one discovered document (`types.SwaggerDocumentInfo`,
restricted to the fields the embedded functions read). -/
structure SwaggerDocumentInfo where
  filePath : GoStr
  version : GoStr
  title : GoStr

/-! ## Endpoint extraction (`pkg/swagger/parser.go`) -/

/-- The fixed set of HTTP verbs recognised by `isHTTPMethod`. -/
def httpMethods : List GoStr :=
  [("get").data, ("post").data, ("put").data, ("delete").data,
   ("patch").data, ("head").data, ("options").data, ("trace").data]

/-- Model of `isHTTPMethod`: case-insensitive membership in the verb set. -/
def isHTTPMethod (method : GoStr) : Bool :=
  httpMethods.any (fun m => m == goToLower method)

/-- Model of `parseParameter`: read one parameter object, with Go zero values for
absent or wrongly-typed fields. -/
def parseParameter (paramMap : List (GoStr × JValue)) : SwaggerParameter :=
  { name := getStringField paramMap (("name").data)
    location := getStringField paramMap (("in").data)
    description := getStringField paramMap (("description").data)
    required := getBoolField paramMap (("required").data)
    schema := lookupJ paramMap (("schema").data)
    exampleValue := lookupJ paramMap (("example").data) }

/-- The two parameter-collection loops of `ExtractEndpoints`: append the
parsed form of every array item that is an object, in array order. -/
def appendParsedParams (acc : List SwaggerParameter) :
    List JValue → List SwaggerParameter
  | [] => acc
  | j :: rest =>
    match jObjFields j with
    | some m => appendParsedParams (acc ++ [parseParameter m]) rest
    | none => appendParsedParams acc rest

/-- The tag-collection loop of `ExtractEndpoints`: keep the string items. -/
def collectTags (items : List JValue) : List GoStr :=
  items.foldl
    (fun acc j =>
      match j with
      | JValue.str s => acc ++ [s]
      | _ => acc)
    []

/-- The body of the per-method loop of `ExtractEndpoints`: build the
endpoint of one `(method, operation)` entry of a path item, or skip it
(`none`) exactly when the loop does (`continue`).  `pathItem` is the whole
path entry, used for the path-level `parameters` block. -/
def extractOperationEndpoint (path : GoStr) (pathItem : List (GoStr × JValue))
    (method : GoStr) (opVal : JValue) : Option SwaggerEndpoint :=
  if isHTTPMethod method = false then none
  else
    match opVal with
    | JValue.obj operation =>
      let opParams :=
        match lookupJ operation (("parameters").data) with
        | some (JValue.arr items) => appendParsedParams [] items
        | _ => []
      let allParams :=
        match lookupJ pathItem (("parameters").data) with
        | some (JValue.arr items) => appendParsedParams opParams items
        | _ => opParams
      some
        { path := path
          method := goToUpper method
          operationID := getStringField operation (("operationId").data)
          summary := getStringField operation (("summary").data)
          description := getStringField operation (("description").data)
          tags :=
            match lookupJ operation (("tags").data) with
            | some (JValue.arr items) => collectTags items
            | _ => []
          parameters := allParams
          requestBody := lookupJ operation (("requestBody").data)
          responses :=
            match lookupJ operation (("responses").data) with
            | some (JValue.obj m) => m
            | _ => []
          deprecated := getBoolField operation (("deprecated").data)
          mcpToolName := [] }
    | _ => none

/-! ## Tool generation (`pkg/swagger/generator.go`) -/

/-- Model of `sanitizeToolName`, stage 2: the regex replacement `[^a-z0-9_] → _`. -/
def replaceInvalid (s : GoStr) : GoStr :=
  s.map (fun c => if isClassChar c then c else '_')

/-- Model of `sanitizeToolName`, stage 3 worker: collapse every run of underscores to
a single one; the flag records whether the previously emitted character was
an underscore. -/
def collapseGo : Bool → GoStr → GoStr
  | _, [] => []
  | prevUnd, c :: rest =>
    if c = '_' then
      if prevUnd then collapseGo true rest
      else '_' :: collapseGo true rest
    else c :: collapseGo false rest

/-- Model of `sanitizeToolName`, stage 3: the regex replacement `_+ → _`. -/
def collapseUnderscores (s : GoStr) : GoStr := collapseGo false s

/-- Model of `sanitizeToolName` before its emptiness fallback: lower-case, replace
invalid characters, collapse underscore runs, trim edge underscores. -/
def sanitizeCore (name : GoStr) : GoStr :=
  goTrimSet ['_'] (collapseUnderscores (replaceInvalid (goToLower name)))

/-- Model of `sanitizeToolName`: the core pipeline with the `unknown_tool` fallback
for an empty result. -/
def sanitizeToolName (name : GoStr) : GoStr :=
  if sanitizeCore name = [] then ("unknown_tool").data else sanitizeCore name

/-- The abbreviation dictionary of `abbreviatePathPart`. -/
def pathAbbreviations : List (GoStr × GoStr) :=
  [(("forecast").data, ("fcst").data),
   (("observations").data, ("obs").data),
   (("current").data, ("cur").data),
   (("historical").data, ("hist").data),
   (("location").data, ("loc").data),
   (("geocode").data, ("geo").data),
   (("notifications").data, ("notif").data),
   (("intraday").data, ("intra").data),
   (("hourly").data, ("hr").data),
   (("daily").data, ("day").data),
   (("lightning").data, ("light").data),
   (("temperature").data, ("temp").data),
   (("humidity").data, ("humid").data),
   (("pressure").data, ("press").data),
   (("precipitation").data, ("precip").data),
   (("weather").data, ("wx").data),
   (("almanac").data, ("alm").data),
   (("astronomy").data, ("astro").data),
   (("airquality").data, ("aq").data),
   (("pollen").data, ("pol").data),
   (("tides").data, ("tide").data)]

/-- Model of `abbreviatePathPart`: dictionary lookup on the lower-cased part, else
truncation to 8 characters. -/
def abbreviatePathPart (part : GoStr) : GoStr :=
  match pathAbbreviations.find? (fun kv => kv.1 == goToLower part) with
  | some kv => kv.2
  | none => if part.length > 8 then part.take 8 else part

/-- The `switch paramName` of `generateCompactPathName`: fixed short forms
for known parameter names, else truncation to 6 characters. -/
def abbreviateParamName (paramName : GoStr) : GoStr :=
  if paramName = ("locationId").data then ("loc").data
  else if paramName = ("latitude").data then ("lat").data
  else if paramName = ("longitude").data then ("lon").data
  else if paramName = ("geocode").data then ("geo").data
  else if paramName.length > 6 then paramName.take 6
  else paramName

/-- The joined path segments of `generateCompactPathName`: each segment
abbreviated (placeholder segments through the parameter table, others
through the path table, empty abbreviations dropped), joined with
underscores. -/
def compactPathStr (endpoint : SwaggerEndpoint) : GoStr :=
  let pathParts := splitOnChar '/' (goTrimSet ['/'] endpoint.path)
  let cleanParts := pathParts.foldl
    (fun acc part =>
      if part.head? = some '{' && part.getLast? = some '}' then
        acc ++ [abbreviateParamName (goTrimSet ['{', '}'] part)]
      else
        let abbreviated := abbreviatePathPart part
        if abbreviated ≠ [] then acc ++ [abbreviated] else acc)
    []
  joinSep '_' cleanParts

/-- Model of `generateCompactPathName`: the joined abbreviated path segments with
the lower-cased method appended, sanitized. -/
def generateCompactPathName (endpoint : SwaggerEndpoint) : GoStr :=
  sanitizeToolName (compactPathStr endpoint ++ '_' :: goToLower endpoint.method)

/-- The `abbreviatedParts` of `abbreviateToolName`: every
underscore-separated segment re-abbreviated. -/
def abbrevPartsOf (name : GoStr) : List GoStr :=
  (splitOnChar '_' name).map abbreviatePathPart

/-- The re-joined abbreviated name (`abbreviated` in Go). -/
def abbrevJoined (name : GoStr) : GoStr := joinSep '_' (abbrevPartsOf name)

/-- The final segment (`lastPart` in Go; the parts of a split are never
empty, so the default of `getLastD` is unreachable). -/
def abbrevLastPart (name : GoStr) : GoStr := (abbrevPartsOf name).getLastD []

/-- The joined leading segments (`firstPartsStr` before truncation). -/
def abbrevFirstRaw (name : GoStr) : GoStr :=
  joinSep '_' (abbrevPartsOf name).dropLast

/-- Model of `spaceForFirst = maxLength - len(lastPart) - 1` (Go int arithmetic; Nat
clamping stands in for the negative range, which the name-shape theorem
avoids). -/
def abbrevSpaceForFirst (name : GoStr) (maxLength : Nat) : Nat :=
  maxLength - (abbrevLastPart name).length - 1

/-- The leading segments truncated to the available space. -/
def abbrevFirstStr (name : GoStr) (maxLength : Nat) : GoStr :=
  if (abbrevFirstRaw name).length > abbrevSpaceForFirst name maxLength then
    trimSuffixChar '_' ((abbrevFirstRaw name).take (abbrevSpaceForFirst name maxLength))
  else abbrevFirstRaw name

/-- Model of `abbreviateToolName`: re-abbreviate every underscore-separated segment;
if still too long, keep the leading segments and the final segment,
truncating the leading ones to fit; with at most two segments, hard
truncation instead. -/
def abbreviateToolName (name : GoStr) (maxLength : Nat) : GoStr :=
  if name.length ≤ maxLength then name
  else if (abbrevJoined name).length ≤ maxLength then abbrevJoined name
  else if (abbrevPartsOf name).length > 2 then
    abbrevFirstStr name maxLength ++ '_' :: abbrevLastPart name
  else trimSuffixChar '_' ((abbrevJoined name).take maxLength)

/-- The `baseName` of `generateToolName` before length clamping: the
sanitized operation id when present, else the compact path name. -/
def baseNameOf (endpoint : SwaggerEndpoint) : GoStr :=
  if endpoint.operationID ≠ [] then sanitizeToolName endpoint.operationID
  else generateCompactPathName endpoint

/-- The `_v<version>` suffix of `generateToolName` (empty for an empty
version). -/
def versionSuffixOf (docInfo : SwaggerDocumentInfo) : GoStr :=
  if docInfo.version ≠ [] then '_' :: 'v' :: docInfo.version else []

/-- The base name after clamping to the space the version suffix leaves
(`availableLength = 64 - len(versionSuffix)` in Go ints; in this model the
Nat subtraction clamps at 0 where Go would go negative and panic on the
slice — the name-shape theorem keeps the quantity positive). -/
def baseNameClamped (endpoint : SwaggerEndpoint) (docInfo : SwaggerDocumentInfo) :
    GoStr :=
  if (baseNameOf endpoint).length > 64 - (versionSuffixOf docInfo).length then
    abbreviateToolName (baseNameOf endpoint) (64 - (versionSuffixOf docInfo).length)
  else baseNameOf endpoint

/-- The `finalName` of `generateToolName` before the emergency truncation. -/
def finalNameOf (endpoint : SwaggerEndpoint) (docInfo : SwaggerDocumentInfo) :
    GoStr :=
  baseNameClamped endpoint docInfo ++ versionSuffixOf docInfo

/-- The generation path of `generateToolName` (every case except a usable
`x-mcp-tool-name` override), with the emergency `...` truncation as a last
resort. -/
def generateToolNameGenerated (endpoint : SwaggerEndpoint)
    (docInfo : SwaggerDocumentInfo) : GoStr :=
  if (finalNameOf endpoint docInfo).length > 64 then
    trimSuffixChar '_' ((finalNameOf endpoint docInfo).take 61 ++ ("...").data)
  else finalNameOf endpoint docInfo

/-- Model of `generateToolName` (the 64-character-bounded variant of
`generator.go`): explicit `x-mcp-tool-name` override used verbatim when at
most 64 characters after space trimming; otherwise the generation path. -/
def generateToolName (endpoint : SwaggerEndpoint) (docInfo : SwaggerDocumentInfo) :
    GoStr :=
  if endpoint.mcpToolName ≠ [] then
    let toolName := goTrimSpace endpoint.mcpToolName
    if toolName.length ≤ 64 then toolName
    else generateToolNameGenerated endpoint docInfo
  else generateToolNameGenerated endpoint docInfo

/-- Model of `generateToolDescription`: summary, else description, else
`METHOD path`; version prefix; tag suffix; truncation to 200 characters. -/
def generateToolDescription (endpoint : SwaggerEndpoint)
    (docInfo : SwaggerDocumentInfo) : GoStr :=
  let description :=
    if endpoint.summary ≠ [] then endpoint.summary
    else if endpoint.description ≠ [] then endpoint.description
    else endpoint.method ++ ' ' :: endpoint.path
  let description :=
    if docInfo.version ≠ [] then
      ('[' :: 'v' :: docInfo.version ++ [']', ' ']) ++ description
    else description
  let description :=
    if endpoint.tags ≠ [] then
      description ++ (" (Tags: ").data ++ joinStrSep ((", ").data) endpoint.tags ++ [')']
    else description
  if description.length > 200 then description.take 197 ++ ("...").data
  else description

/-- Model of `generateParameterSchema`: the per-parameter JSON-schema object. -/
def generateParameterSchema (param : SwaggerParameter) : List (GoStr × JValue) :=
  let schema : List (GoStr × JValue) := [(("type").data, JValue.str (("string").data))]
  let schema :=
    if param.description ≠ [] then
      alistSet schema (("description").data) (JValue.str param.description)
    else schema
  let schema :=
    match param.schema with
    | some (JValue.obj sm) =>
      let schema :=
        match lookupJ sm (("type").data) with
        | some (JValue.str t) => alistSet schema (("type").data) (JValue.str t)
        | _ => schema
      let schema :=
        match lookupJ sm (("format").data) with
        | some (JValue.str f) => alistSet schema (("format").data) (JValue.str f)
        | _ => schema
      let schema :=
        match lookupJ sm (("enum").data) with
        | some (JValue.arr e) => alistSet schema (("enum").data) (JValue.arr e)
        | _ => schema
      let schema :=
        match lookupJ sm (("minimum").data) with
        | some v => alistSet schema (("minimum").data) v
        | none => schema
      let schema :=
        match lookupJ sm (("maximum").data) with
        | some v => alistSet schema (("maximum").data) v
        | none => schema
      match lookupJ sm (("pattern").data) with
      | some (JValue.str p) => alistSet schema (("pattern").data) (JValue.str p)
      | _ => schema
    | _ => schema
  let schema :=
    match param.exampleValue with
    | some v => alistSet schema (("example").data) v
    | none => schema
  alistSet schema (("x-parameter-in").data) (JValue.str param.location)

/-- The generated input schema: the `properties` map and `required` list of
the JSON-schema object built by `generateInputSchema` (its `type` member is
the constant `object`). -/
structure InputSchema where
  properties : List (GoStr × JValue)
  required : List GoStr

/-- The request-body branch of `generateInputSchema`: Go iterates the
`content` map and, at its first content type containing `json` (map order
is random in Go; document order here), uses that entry when it carries a
`schema` object.  Returns those schema fields and whether the body is
declared `required`. -/
def requestBodyJsonSchema : Option JValue → Option (List (GoStr × JValue) × Bool)
  | some (JValue.obj rb) =>
    match lookupJ rb (("content").data) with
    | some (JValue.obj content) =>
      match content.find? (fun kv => goContains (("json").data) kv.1) with
      | some kv =>
        match kv.2 with
        | JValue.obj cs =>
          match lookupJ cs (("schema").data) with
          | some (JValue.obj schemaFields) =>
            some (schemaFields,
              match lookupJ rb (("required").data) with
              | some (JValue.bool true) => true
              | _ => false)
          | _ => none
        | _ => none
      | none => none
    | _ => none
  | _ => none

/-- Whether `generateInputSchema` marks the request body required: a JSON
content type exists, carries a `schema` object, and the body declares
`required: true`. -/
def jsonBodySchemaRequired (endpoint : SwaggerEndpoint) : Bool :=
  match requestBodyJsonSchema endpoint.requestBody with
  | some (_, b) => b
  | none => false

/-- The parameter loop body of `generateInputSchema`: add the property, and
the name to `required` when the parameter is flagged required. -/
def schemaStep (acc : List (GoStr × JValue) × List GoStr)
    (param : SwaggerParameter) : List (GoStr × JValue) × List GoStr :=
  (alistSet acc.1 param.name (JValue.obj (generateParameterSchema param)),
   if param.required then acc.2 ++ [param.name] else acc.2)

/-- Model of `generateInputSchema`: one property per parameter, required names
collected in order, plus the `requestBody` property and requirement when
the request-body branch applies. -/
def generateInputSchema (endpoint : SwaggerEndpoint) : InputSchema :=
  let pr := endpoint.parameters.foldl schemaStep ([], [])
  match requestBodyJsonSchema endpoint.requestBody with
  | some (schemaFields, bodyRequired) =>
    { properties := alistSet pr.1 (("requestBody").data) (JValue.obj schemaFields)
      required :=
        if bodyRequired then pr.2 ++ [("requestBody").data] else pr.2 }
  | none => { properties := pr.1, required := pr.2 }

/-- A generated tool (`types.GeneratedTool`). -/
structure GeneratedTool where
  name : GoStr
  description : GoStr
  inputSchema : InputSchema
  endpoint : SwaggerEndpoint
  documentInfo : SwaggerDocumentInfo

/-- Model of `generateToolFromEndpoint` (its error path is unreachable:
`generateInputSchema` never fails). -/
def generateToolFromEndpoint (endpoint : SwaggerEndpoint)
    (docInfo : SwaggerDocumentInfo) : GeneratedTool :=
  { name := generateToolName endpoint docInfo
    description := generateToolDescription endpoint docInfo
    inputSchema := generateInputSchema endpoint
    endpoint := endpoint
    documentInfo := docInfo }

/-- The per-endpoint loop of `GenerateToolsFromDocument`: deprecated
endpoints are skipped unconditionally (the function has no configuration
parameter; `ToolGenerationConfig.IncludeDeprecated` is never consulted). -/
def generateToolsFromEndpoints (docInfo : SwaggerDocumentInfo) :
    List SwaggerEndpoint → List GeneratedTool
  | [] => []
  | e :: rest =>
    if e.deprecated then generateToolsFromEndpoints docInfo rest
    else generateToolFromEndpoint e docInfo :: generateToolsFromEndpoints docInfo rest

/-! ## Tool registry (`pkg/server/registry.go`)

The registry is the map `tools map[string]*GeneratedTool`, modelled as an
association list; the mutex only serialises access and has no functional
content. -/

/-- The registry state. -/
abbrev ToolRegistry := List (GoStr × GeneratedTool)

/-- Model of `GetTool`. -/
def getTool (r : ToolRegistry) (name : GoStr) : Option GeneratedTool :=
  alistFind r name

/-- Model of `RegisterTool` errors.  Go formats them as strings; the model keeps the
data those strings carry: the empty-name error names the endpoint and
document of the rejected tool, the conflict error names both colliding
sources (method, path, document title of the new and the existing tool). -/
inductive RegError : Type
  | emptyName (method path title : GoStr)
  | conflict (name : GoStr) (newMethod newPath newTitle : GoStr)
      (oldMethod oldPath oldTitle : GoStr)

/-- Model of `RegisterTool`: reject the empty name, reject a name collision (both
leave the map untouched), otherwise insert.  The returned pair is the Go
`error` result together with the registry state after the call. -/
def registerTool (r : ToolRegistry) (tool : GeneratedTool) :
    Option RegError × ToolRegistry :=
  if tool.name = [] then
    (some (RegError.emptyName tool.endpoint.method tool.endpoint.path
      tool.documentInfo.title), r)
  else
    match getTool r tool.name with
    | some existing =>
      (some (RegError.conflict tool.name tool.endpoint.method tool.endpoint.path
        tool.documentInfo.title existing.endpoint.method existing.endpoint.path
        existing.documentInfo.title), r)
    | none => (none, r ++ [(tool.name, tool)])

/-! ## Outbound HTTP client (`pkg/http/client.go`) -/

/-- An opaque transport-level failure of one attempt (`http.Client.Do`
error). -/
structure TransportError where
  msg : GoStr

/-- One HTTP response (`http.Response` after reading the body). -/
structure HttpResponse where
  statusCode : Int
  headers : List (GoStr × GoStr)
  body : GoStr

/-- The outcome of one outbound attempt, the model of the network. -/
inductive AttemptOutcome : Type
  | err (e : TransportError)
  | resp (r : HttpResponse)

/-- The error remembered by the retry loop after a failed attempt. -/
inductive AttemptError : Type
  | transport (e : TransportError)
  | httpStatus (code : Int)

/-- The error surfaced when the retry loop exhausts its attempts:
`request failed after %d attempts (URL: %s, last error: %w)`. -/
structure RetryFailure where
  attempts : Nat
  url : GoStr
  last : Option AttemptError

/-- A built outbound request (`http.Request`, restricted to what the code
sets). -/
structure HttpRequest where
  method : GoStr
  url : GoStr
  headers : List (GoStr × GoStr)
  body : Option JValue

/-- Model of `shouldRetry`: HTTP 429/500/502/503/504. -/
def shouldRetry (statusCode : Int) : Bool :=
  statusCode = 429 || statusCode = 500 || statusCode = 502 ||
  statusCode = 503 || statusCode = 504

/-- The loop of `executeWithRetries` (`for attempt := 0; attempt <=
maxRetries; attempt++`).  The fuel counts the remaining loop iterations and
starts at `maxRetries + 1`, so it reaches 0 exactly when the Go loop
exits.  The backoff sleep has no functional content and is not modelled.
The result pairs the number of attempts actually executed with the Go
return value. -/
def retryLoop (outcomes : Nat → AttemptOutcome) (maxRetries : Nat) (url : GoStr) :
    Nat → Option AttemptError → Nat → Nat × Except RetryFailure HttpResponse
  | attempt, lastErr, 0 =>
    (attempt, Except.error { attempts := maxRetries + 1, url := url, last := lastErr })
  | attempt, _lastErr, fuel + 1 =>
    -- the remembered error is replaced on every failed attempt and unused
    -- on success, as in Go
    match outcomes attempt with
    | AttemptOutcome.err e =>
      retryLoop outcomes maxRetries url (attempt + 1)
        (some (AttemptError.transport e)) fuel
    | AttemptOutcome.resp r =>
      if shouldRetry r.statusCode && attempt < maxRetries then
        retryLoop outcomes maxRetries url (attempt + 1)
          (some (AttemptError.httpStatus r.statusCode)) fuel
      else (attempt + 1, Except.ok r)

/-- Model of `executeWithRetries`, parametrised by the per-attempt outcomes. -/
def executeWithRetries (outcomes : Nat → AttemptOutcome) (maxRetries : Nat)
    (url : GoStr) : Nat × Except RetryFailure HttpResponse :=
  retryLoop outcomes maxRetries url 0 none (maxRetries + 1)

/-- Request-building failures (`buildRequest`).  `requiredMissing` is the
validation error `required parameter %s ... is missing from arguments`. -/
inductive BuildError : Type
  | requiredMissing (name location : GoStr)

/-- The parameter-binding loop of `buildRequest`: path parameters into the
substitution map, query parameters appended, header parameters into the
header map, cookie parameters dropped (unsupported); a missing required
parameter aborts with a validation error. -/
def processParameters (arguments : List (GoStr × JValue)) :
    List SwaggerParameter → List (GoStr × GoStr) → List (GoStr × GoStr) →
    List (GoStr × GoStr) →
    Except BuildError (List (GoStr × GoStr) × List (GoStr × GoStr) × List (GoStr × GoStr))
  | [], pathParams, queryParams, headers =>
    Except.ok (pathParams, queryParams, headers)
  | param :: rest, pathParams, queryParams, headers =>
    match alistFind arguments param.name with
    | none =>
      if param.required then
        Except.error (BuildError.requiredMissing param.name param.location)
      else processParameters arguments rest pathParams queryParams headers
    | some v =>
      let valueStr := jvalueToString v
      if param.location = ("path").data then
        processParameters arguments rest (alistSet pathParams param.name valueStr)
          queryParams headers
      else if param.location = ("query").data then
        processParameters arguments rest pathParams
          (queryParams ++ [(param.name, valueStr)]) headers
      else if param.location = ("header").data then
        processParameters arguments rest pathParams queryParams
          (alistSet headers param.name valueStr)
      else
        -- `cookie` (logged, unsupported) and unknown locations bind nothing.
        processParameters arguments rest pathParams queryParams headers

/-- Lexicographic Bool order on strings, for `url.Values.Encode` key
sorting. -/
def lexLe : GoStr → GoStr → Bool
  | [], _ => true
  | _ :: _, [] => false
  | a :: as, b :: bs => if a = b then lexLe as bs else decide (a < b)

/-- Insertion sort by key (the model of the key sorting of
`url.Values.Encode`). -/
def insertSorted (kv : GoStr × GoStr) : List (GoStr × GoStr) → List (GoStr × GoStr)
  | [] => [kv]
  | x :: xs => if lexLe kv.1 x.1 then kv :: x :: xs else x :: insertSorted kv xs

/-- Sort an association list by key. -/
def sortByKey : List (GoStr × GoStr) → List (GoStr × GoStr)
  | [] => []
  | kv :: rest => insertSorted kv (sortByKey rest)

/-- Model of `url.Values.Encode`, with percent-escaping omitted (no claim depends on
it). -/
def encodeQuery (queryParams : List (GoStr × GoStr)) : GoStr :=
  joinStrSep ['&'] ((sortByKey queryParams).map (fun kv => kv.1 ++ '=' :: kv.2))

/-- Model of `getBaseURL`: both branches of the Go function return the same constant
URL. -/
def getBaseURL : GoStr := ("https://api.weather.com").data

/-- Model of `buildRequest`: bind the parameters, substitute the `{name}` path
placeholders (Go iterates the path-parameter map in random order; list
order here), serialise a `requestBody` argument (JSON marshalling of a
decoded value cannot fail, so the body is kept as its `JValue`), assemble
the URL. -/
def buildRequest (endpoint : SwaggerEndpoint) (arguments : List (GoStr × JValue)) :
    Except BuildError HttpRequest :=
  match processParameters arguments endpoint.parameters [] [] [] with
  | Except.error e => Except.error e
  | Except.ok (pathParams, queryParams, headers0) =>
    let requestPath := pathParams.foldl
      (fun p kv => replaceAll ('{' :: kv.1 ++ ['}']) kv.2 p) endpoint.path
    let bodyAndHeaders :=
      match alistFind arguments (("requestBody").data) with
      | some v =>
        (some v, alistSet headers0 (("Content-Type").data) (("application/json").data))
      | none => (none, headers0)
    let fullURL := trimSuffixChar '/' getBaseURL ++ requestPath ++
      (if queryParams ≠ [] then '?' :: encodeQuery queryParams else [])
    Except.ok
      { method := goToUpper endpoint.method
        url := fullURL
        headers := bodyAndHeaders.2
        body := bodyAndHeaders.1 }

/-- The configuration slice the client reads (`config.Auth`, `config.HTTP`). -/
structure ClientConfig where
  apiKey : GoStr
  defaultScheme : GoStr
  userAgent : GoStr
  retries : Nat

/-- Model of `addAuthentication`: Bearer token by default, `X-API-Key` header for the
`apikey` scheme; nothing without an API key.  (Never fails.) -/
def addAuthentication (cfg : ClientConfig) (req : HttpRequest) : HttpRequest :=
  if cfg.apiKey ≠ [] then
    if cfg.defaultScheme = ("apikey").data then
      { req with headers := alistSet req.headers (("X-API-Key").data) cfg.apiKey }
    else
      { req with headers :=
          (alistSet req.headers (("Authorization").data) (("Bearer ").data ++ cfg.apiKey)) }
  else req

/-- Model of `addDefaultHeaders`: user agent (configured or default), `Accept` when
unset. -/
def addDefaultHeaders (cfg : ClientConfig) (req : HttpRequest) : HttpRequest :=
  let req :=
    if cfg.userAgent ≠ [] then
      { req with headers := alistSet req.headers (("User-Agent").data) cfg.userAgent }
    else
      { req with headers :=
          alistSet req.headers (("User-Agent").data) (("swagger-docs-mcp/1.0.0").data) }
  match alistFind req.headers (("Accept").data) with
  | some v =>
    if v = [] then
      { req with headers :=
          alistSet req.headers (("Accept").data) (("application/json, */*").data) }
    else req
  | none =>
    { req with headers :=
        alistSet req.headers (("Accept").data) (("application/json, */*").data) }

/-- Errors of `ExecuteRequest` (each Go branch wraps with `fmt.Errorf`
context; the model keeps the wrapped error). -/
inductive ExecError : Type
  | build (e : BuildError)
  | http (f : RetryFailure)

/-- Model of `ExecuteRequest`: build, authenticate, add headers, execute with
retries.  The first component counts the network attempts actually made
(0 when building fails: no HTTP request is issued). -/
def executeRequestM (cfg : ClientConfig) (outcomes : Nat → AttemptOutcome)
    (endpoint : SwaggerEndpoint) (arguments : List (GoStr × JValue)) :
    Nat × Except ExecError HttpResponse :=
  match buildRequest endpoint arguments with
  | Except.error e => (0, Except.error (ExecError.build e))
  | Except.ok req0 =>
    let req := addDefaultHeaders cfg (addAuthentication cfg req0)
    match executeWithRetries outcomes cfg.retries req.url with
    | (n, Except.ok r) => (n, Except.ok r)
    | (n, Except.error f) => (n, Except.error (ExecError.http f))

/-! ## MCP protocol server (`pkg/server/mcp.go`) -/

/-- A JSON-RPC error member. -/
structure MCPError where
  code : Int
  message : GoStr

/-- One content item of a tool result. -/
structure MCPContent where
  type : GoStr
  text : GoStr
  mimeType : GoStr

/-- A tool-call result (`types.MCPCallToolResult`). -/
structure MCPCallToolResult where
  content : List MCPContent
  isError : Bool

/-- The result member of a response, as far as the embedded handlers
produce it. -/
inductive MCPResult : Type
  | callTool (r : MCPCallToolResult)

/-- A JSON-RPC response envelope (`types.MCPResponse`; `id`, `result` and
`error` are `omitempty`, hence `Option`). -/
structure MCPResponse where
  jsonrpc : GoStr
  id : Option JValue
  result : Option MCPResult
  error : Option MCPError

/-- Model of `sendResponse`. -/
def sendResponse (id : Option JValue) (result : MCPResult) : MCPResponse :=
  { jsonrpc := ("2.0").data, id := id, result := some result, error := none }

/-- Model of `sendErrorResponse`. -/
def sendErrorResponse (id : Option JValue) (code : Int) (message : GoStr) :
    MCPResponse :=
  { jsonrpc := ("2.0").data, id := id, result := none,
    error := some { code := code, message := message } }

/-- An incoming JSON-RPC request (`types.MCPRequest`). -/
structure MCPRequest where
  jsonrpc : GoStr
  id : Option JValue
  method : GoStr
  params : Option JValue

/-- Decoding of one string struct field by `json.Unmarshal`: absent and
`null` leave the zero value, a string sets it, any other type is a decode
error. -/
def decodeStringFieldJ (fields : List (GoStr × JValue)) (key : GoStr) :
    Option GoStr :=
  match lookupJ fields key with
  | none => some []
  | some (JValue.str s) => some s
  | some JValue.null => some []
  | some _ => none

/-- Model of `json.Unmarshal` of a decoded value into `types.MCPRequest`: a top-level
`null` is a no-op success, an object fills the fields, anything else is a
decode error. -/
def decodeMCPRequest : JValue → Option MCPRequest
  | JValue.null => some { jsonrpc := [], id := none, method := [], params := none }
  | JValue.obj fields =>
    match decodeStringFieldJ fields (("jsonrpc").data),
        decodeStringFieldJ fields (("method").data) with
    | some j, some m =>
      some { jsonrpc := j, id := lookupJ fields (("id").data), method := m,
             params := lookupJ fields (("params").data) }
    | _, _ => none
  | _ => none

/-- The parse-error response sent by `handleMessages` for malformed input:
`sendErrorResponse(nil, -32700, "Parse error", nil)` — the identifier is
the constant `nil`, never recovered from the input. -/
def parseErrorResponse : MCPResponse :=
  sendErrorResponse none (-32700) (("Parse error").data)

/-- The per-line front end of `handleMessages`: empty lines are skipped
without any response (`none`); a line that does not decode into an
`MCPRequest` is answered with the parse-error response; otherwise the
decoded request is passed on to `handleRequest` (the dispatch boundary of
this embedding). -/
def readMessage (line : GoStr) : Option (Except MCPResponse MCPRequest) :=
  if line = [] then none
  else
    match parseJson line with
    | none => some (Except.error parseErrorResponse)
    | some j =>
      match decodeMCPRequest j with
      | none => some (Except.error parseErrorResponse)
      | some req => some (Except.ok req)

/-- Model of `tools/call` parameters after decoding (`types.MCPCallToolParams`).  The
JSON round trip `Marshal(request.Params)` / `Unmarshal` of the handler is
modelled as the already-decoded value. -/
structure MCPCallToolParams where
  name : GoStr
  arguments : List (GoStr × JValue)

/-- A readable rendering of execution errors (`err.Error()`); the exact Go
message strings carry the same data. -/
def execErrorText : ExecError → GoStr
  | ExecError.build (BuildError.requiredMissing name location) =>
    ("required parameter missing: ").data ++ name ++ (" in ").data ++ location
  | ExecError.http f =>
    ("request failed after ").data ++ natToStr f.attempts ++ (" attempts: ").data ++ f.url

/-- Model of `executeAPICall`: run the outbound request; a completed HTTP exchange
becomes a tool result whose `isError` is set exactly for status >= 400. -/
def executeAPICall (cfg : ClientConfig) (outcomes : Nat → AttemptOutcome)
    (tool : GeneratedTool) (arguments : List (GoStr × JValue)) :
    Except ExecError MCPCallToolResult :=
  match (executeRequestM cfg outcomes tool.endpoint arguments).2 with
  | Except.error e => Except.error e
  | Except.ok response =>
    let mime :=
      match alistFind response.headers (("Content-Type").data) with
      | some v => v
      | none => []
    Except.ok
      { content := [{ type := ("text").data, text := response.body, mimeType := mime }]
        isError := decide (400 ≤ response.statusCode) }

/-- Model of `handleCallTool` for decoded parameters: unknown tool names get a
protocol error envelope; execution failures and completed calls both get a
success envelope carrying a tool result. -/
def handleCallTool (registry : ToolRegistry) (id : Option JValue)
    (params : MCPCallToolParams) (cfg : ClientConfig)
    (outcomes : Nat → AttemptOutcome) : MCPResponse :=
  match getTool registry params.name with
  | none => sendErrorResponse id (-32601) (("Tool not found").data)
  | some tool =>
    match executeAPICall cfg outcomes tool params.arguments with
    | Except.error e =>
      sendResponse id (MCPResult.callTool
        { content := [{ type := ("text").data
                        text := ("Error executing tool: ").data ++ execErrorText e
                        mimeType := [] }]
          isError := true })
    | Except.ok result => sendResponse id (MCPResult.callTool result)

/-! ## Claim-side comparison definitions

These two definitions follow the wording of the specification claims (not
the code); they exist to be compared with the embedded code. -/

/-- Follows the claim wording for C8: an identifier that "can be salvaged
from the malformed input" — the first `"id":` key visible in the raw text,
followed by an (optionally space-separated) integer. -/
def salvageId : GoStr → Option Int
  | [] => none
  | c :: rest =>
    if ("\"id\":").data.isPrefixOf (c :: rest) then
      let after := skipWs ((c :: rest).drop 5)
      match after.takeWhile Char.isDigit with
      | [] => none
      | ds => some ((natOfDigits ds : Nat) : Int)
    else salvageId rest

/-- Follows the claim wording for C9: the endpoint "declares a JSON request
body whose required field is true" — a request-body object with a content
type containing `json` and `required: true` (note: no mention of a `schema`
member). -/
def specDeclaresRequiredJsonBody (endpoint : SwaggerEndpoint) : Bool :=
  match endpoint.requestBody with
  | some (JValue.obj rb) =>
    (match lookupJ rb (("content").data) with
     | some (JValue.obj content) =>
       content.any (fun kv => goContains (("json").data) kv.1)
     | _ => false) &&
    (match lookupJ rb (("required").data) with
     | some (JValue.bool true) => true
     | _ => false)
  | _ => false

/-! ## Concrete instances used by the per-claim theorems -/

/-- A minimal endpoint: `GET /x`, nothing else set. -/
def emptyEndpoint : SwaggerEndpoint :=
  { path := ("/x").data, method := ("GET").data, operationID := [],
    summary := [], description := [], tags := [], parameters := [],
    requestBody := none, responses := [], deprecated := false,
    mcpToolName := [] }

/-- A document info with version `1`. -/
def docV1 : SwaggerDocumentInfo :=
  { filePath := ("a.json").data, version := ("1").data, title := ("A").data }

/-- A document info with version `1.0` (a perfectly ordinary semantic
version string). -/
def docV10 : SwaggerDocumentInfo :=
  { filePath := ("a.json").data, version := ("1.0").data, title := ("A").data }

/-- An empty input schema. -/
def emptySchema : InputSchema := { properties := [], required := [] }

/-- A registered tool named `alpha` from document `A`. -/
def toolAlpha : GeneratedTool :=
  { name := ("alpha").data, description := [], inputSchema := emptySchema,
    endpoint := emptyEndpoint, documentInfo := docV1 }

/-- A second tool that also wants the name `alpha`, from another source. -/
def toolAlphaClash : GeneratedTool :=
  { name := ("alpha").data, description := [], inputSchema := emptySchema,
    endpoint := { emptyEndpoint with path := ("/y").data, method := ("POST").data },
    documentInfo := { docV1 with title := ("B").data, filePath := ("b.json").data } }

/-- A tool named `beta`. -/
def toolBeta : GeneratedTool :=
  { name := ("beta").data, description := [], inputSchema := emptySchema,
    endpoint := emptyEndpoint, documentInfo := docV1 }

/-- A one-tool registry holding `alpha`. -/
def regAlpha : ToolRegistry := [(("alpha").data, toolAlpha)]

/-- Witness endpoint for the name-shape theorem: `GET /a/b`. -/
def endpointAB : SwaggerEndpoint := { emptyEndpoint with path := ("/a/b").data }

/-- Model of `GET /x.json`. -/
def endpointXJson : SwaggerEndpoint := { emptyEndpoint with path := ("/x.json").data }

/-- Model of `GET /x.xml`. -/
def endpointXXml : SwaggerEndpoint := { emptyEndpoint with path := ("/x.xml").data }

/-- A deprecated endpoint. -/
def endpointDeprecated : SwaggerEndpoint := { emptyEndpoint with deprecated := true }

/-- A required path parameter named `loc`. -/
def paramLocRequired : SwaggerParameter :=
  { name := ("loc").data, location := ("path").data, description := [],
    required := true, schema := none, exampleValue := none }

/-- An endpoint with one required parameter. -/
def endpointReqParam : SwaggerEndpoint :=
  { emptyEndpoint with parameters := [paramLocRequired] }

/-- A tool wrapping `emptyEndpoint`, registered under the name `t`. -/
def toolT : GeneratedTool :=
  { name := ("t").data, description := [], inputSchema := emptySchema,
    endpoint := emptyEndpoint, documentInfo := docV1 }

/-- A one-tool registry holding `t`. -/
def regT : ToolRegistry := [(("t").data, toolT)]

/-- A client configuration with no credentials and no retries. -/
def cfgPlain : ClientConfig :=
  { apiKey := [], defaultScheme := [], userAgent := [], retries := 0 }

/-- A network where every attempt completes with HTTP 200. -/
def outcomes200 : Nat → AttemptOutcome :=
  fun _ => AttemptOutcome.resp { statusCode := 200, headers := [], body := ("ok").data }

/-- The HTTP 503 response returned by every attempt in the retry claims. -/
def resp503 : HttpResponse := { statusCode := 503, headers := [], body := [] }

/-- A network where every attempt completes with HTTP 503. -/
def outcomes503 : Nat → AttemptOutcome := fun _ => AttemptOutcome.resp resp503

/-- A transport-level failure. -/
def transportDown : TransportError := { msg := ("connection refused").data }

/-- A network where every attempt fails at transport level. -/
def outcomesDown : Nat → AttemptOutcome := fun _ => AttemptOutcome.err transportDown

/-- The target URL used in the retry theorems. -/
def urlW : GoStr := ("https://api.weather.com/x").data

/-- A malformed input line (truncated JSON) that still shows an `id`:
`{"jsonrpc": "2.0", "id": 7, "method": "x"` with no closing brace. -/
def malformedLine : GoStr :=
  '{' :: ("\"jsonrpc\": \"2.0\", \"id\": 7, \"method\": \"x\"").data

/-- The request body of the C9 counterexample: a JSON content type and
`required: true`, but no `schema` member. -/
def bodyNoSchema : JValue :=
  JValue.obj
    [((("content").data), JValue.obj [((("application/json").data), JValue.obj [])]),
     ((("required").data), JValue.bool true)]

/-- An endpoint declaring `bodyNoSchema` as its request body. -/
def endpointBodyNoSchema : SwaggerEndpoint :=
  { emptyEndpoint with requestBody := some bodyNoSchema }

/-- A parameter object `{name: q, in: query, required: true}`, as decoded
JSON. -/
def paramObjQ : JValue :=
  JValue.obj
    [((("name").data), JValue.str (("q").data)),
     ((("in").data), JValue.str (("query").data)),
     ((("required").data), JValue.bool true)]

/-- An operation declaring `paramObjQ` at operation level. -/
def operationQ : List (GoStr × JValue) :=
  [((("parameters").data), JValue.arr [paramObjQ])]

/-- A path item declaring the same `paramObjQ` at path level (plus the
operation under `get`). -/
def pathItemQ : List (GoStr × JValue) :=
  [((("get").data), JValue.obj operationQ),
   ((("parameters").data), JValue.arr [paramObjQ])]

/-! # Theorems

General helper lemmas first, then one main theorem per claim (with its
witness or counterexample). -/

/-- A successful association-list lookup exhibits a member with that key. -/
theorem alistFind_mem {α : Type} {m : List (GoStr × α)} {k : GoStr} {v : α}
    (h : alistFind m k = some v) : (k, v) ∈ m := by
  unfold alistFind at h
  cases hf : m.find? (fun kv => kv.1 == k) with
  | none => rw [hf] at h; cases h
  | some kv =>
    rw [hf] at h
    cases h
    have hkey := List.find?_some hf
    have hmem : kv ∈ m := List.mem_of_find?_eq_some hf
    have heq : kv.1 = k := by simpa using hkey
    rw [← heq]
    simpa using hmem

/-- Appending a fresh key to an association list makes it found. -/
theorem alistFind_append_single {α : Type} {m : List (GoStr × α)} {k : GoStr}
    (v : α) (h : alistFind m k = none) : alistFind (m ++ [(k, v)]) k = some v := by
  induction m with
  | nil => simp [alistFind, List.find?]
  | cons kv rest ih =>
    unfold alistFind at h ⊢
    cases hk : (kv.1 == k) with
    | true => simp [List.find?, hk] at h
    | false =>
      simp only [List.cons_append, List.find?, hk] at h ⊢
      exact ih h

/-- C1: registering a tool whose name is already present fails with a
conflict error naming both colliding sources (method, path and document of
the new and of the existing tool) and leaves the registry exactly as it
was; registering a tool with a fresh non-empty name succeeds and afterwards
that name maps to exactly that tool.  The hypothesis `hwf` is the registry
invariant that no registered name is empty (every state reachable through
`registerTool` satisfies it, since empty names are rejected). -/
theorem registerTool_unique (r : ToolRegistry) (tool : GeneratedTool)
    (hwf : ∀ kv ∈ r, kv.1 ≠ ([] : GoStr)) :
    (∀ existing, getTool r tool.name = some existing →
       registerTool r tool =
         (some (RegError.conflict tool.name tool.endpoint.method tool.endpoint.path
           tool.documentInfo.title existing.endpoint.method existing.endpoint.path
           existing.documentInfo.title), r)) ∧
    (tool.name ≠ [] → getTool r tool.name = none →
       (registerTool r tool).1 = none ∧
       getTool (registerTool r tool).2 tool.name = some tool) := by
  constructor
  · intro existing hex
    have hne : tool.name ≠ [] := by
      intro h0
      exact hwf (tool.name, existing) (alistFind_mem hex) h0
    simp [registerTool, hne, hex]
  · intro hne hnone
    have hreg : registerTool r tool = (none, r ++ [(tool.name, tool)]) := by
      simp [registerTool, hne, hnone]
    rw [hreg]
    exact ⟨rfl, alistFind_append_single tool hnone⟩

/-- Witness for C1 at concrete inputs: in the registry holding `alpha`, a
second `alpha` is rejected with the conflict error naming both sources and
the registry is unchanged, while `beta` registers and is then found. -/
theorem registerTool_unique_witness :
    (registerTool regAlpha toolAlphaClash =
      (some (RegError.conflict (("alpha").data) (("POST").data) (("/y").data)
        (("B").data) (("GET").data) (("/x").data) (("A").data)), regAlpha)) ∧
    ((registerTool regAlpha toolBeta).1 = none ∧
      getTool (registerTool regAlpha toolBeta).2 (("beta").data) = some toolBeta) := by
  constructor
  · exact (registerTool_unique regAlpha toolAlphaClash
      (by intro kv h; simp [regAlpha] at h; subst h; decide)).1 toolAlpha rfl
  · exact (registerTool_unique regAlpha toolBeta
      (by intro kv h; simp [regAlpha] at h; subst h; decide)).2 (by decide) rfl

/-- C4 (amended): with retries = 2, when every attempt completes with
HTTP 503 the loop performs exactly 3 attempts (1 initial + 2 retries) and
then returns the final 503 response itself as a non-error result; only when
every attempt fails at transport level does it surface the execution error
annotated with the attempt count 3 and the target URL. -/
theorem executeWithRetries_retries2 :
    (∀ (url : GoStr) (outcomes : Nat → AttemptOutcome) (r : HttpResponse),
       (∀ n, outcomes n = AttemptOutcome.resp r) → r.statusCode = 503 →
       executeWithRetries outcomes 2 url = (3, Except.ok r)) ∧
    (∀ (url : GoStr) (outcomes : Nat → AttemptOutcome) (e : TransportError),
       (∀ n, outcomes n = AttemptOutcome.err e) →
       executeWithRetries outcomes 2 url =
         (3, Except.error
           { attempts := 3, url := url, last := some (AttemptError.transport e) })) := by
  constructor
  · intro url outcomes r h hs
    simp [executeWithRetries, retryLoop, h, hs, shouldRetry]
  · intro url outcomes e h
    simp [executeWithRetries, retryLoop, h]

/-- Witness for C4 at concrete inputs: the all-503 network and the
all-transport-failure network, both with retries = 2. -/
theorem executeWithRetries_retries2_witness :
    executeWithRetries outcomes503 2 urlW = (3, Except.ok resp503) ∧
    executeWithRetries outcomesDown 2 urlW =
      (3, Except.error
        { attempts := 3, url := urlW, last := some (AttemptError.transport transportDown) }) :=
  ⟨executeWithRetries_retries2.1 urlW outcomes503 resp503 (fun _ => rfl) rfl,
   executeWithRetries_retries2.2 urlW outcomesDown transportDown (fun _ => rfl)⟩

/-- Counterexample for C4 as stated: with retries = 2 and HTTP 503 on every
attempt, exactly 3 attempts are made but no execution error is surfaced —
the 503 response is returned as a non-error result. -/
theorem executeWithRetries_503_no_error :
    (executeWithRetries outcomes503 2 urlW).1 = 3 ∧
    ¬ (∃ f, (executeWithRetries outcomes503 2 urlW).2 = Except.error f) := by
  constructor
  · rfl
  · intro ⟨f, hf⟩
    have : (executeWithRetries outcomes503 2 urlW).2 = Except.ok resp503 := rfl
    rw [this] at hf
    cases hf

/-- C6: the code skips deprecated endpoints unconditionally — the tool
generation loop takes no configuration at all, so a document whose only
endpoint is deprecated yields no tool, in particular also under a
configuration with `IncludeDeprecated` enabled (which the generator never
consults). -/
theorem deprecated_endpoint_never_generates :
    generateToolsFromEndpoints docV1 [endpointDeprecated] = [] := rfl

/-- Counterexample for C5 as stated: with no preferred-format configuration
(none exists in the generator), both `/x.json` and `/x.xml` do get tools,
but the two names are `x_json_get_v1` and `x_xml_get_v1` — they do not
differ by a trailing `_json`/`_xml` suffix, because the format component
sits before the method and version parts of the name. -/
theorem formatSuffix_not_trailing :
    ((generateToolsFromEndpoints docV1 [endpointXJson, endpointXXml]).map
       (fun t => t.name) = [("x_json_get_v1").data, ("x_xml_get_v1").data]) ∧
    ¬ (∃ p : GoStr, ("x_json_get_v1").data = p ++ ("_json").data ∧
        ("x_xml_get_v1").data = p ++ ("_xml").data) := by
  refine ⟨rfl, ?_⟩
  intro ⟨p, h1, _h2⟩
  have hlen : p.length = 8 := by
    have := congrArg List.length h1
    simp [List.length_append] at this
    omega
  have hdrop := congrArg (List.drop 8) h1
  rw [show (8 : Nat) = p.length from hlen.symm] at hdrop
  rw [List.drop_left] at hdrop
  have : (("x_json_get_v1").data).drop p.length = ("_json").data := hdrop
  rw [hlen] at this
  exact absurd this (by decide)

/-- C5 (amended): both format variants are generated and their names share
the prefix `x` and the common method-and-version suffix `_get_v1`,
differing only in the embedded `_json` / `_xml` format component. -/
theorem formatSuffix_disambiguation :
    (generateToolsFromEndpoints docV1 [endpointXJson, endpointXXml]).map
      (fun t => t.name) =
      [("x").data ++ ("_json").data ++ ("_get_v1").data,
       ("x").data ++ ("_xml").data ++ ("_get_v1").data] := rfl

/-- C8 (amended): every non-empty input line that is not valid JSON is
answered with the parse-error response: code −32700, message `Parse error`,
and an absent identifier — the identifier of the malformed request is never
recovered (and the empty line is skipped without any response, which the
`hne` hypothesis excludes). -/
theorem readMessage_parse_error (line : GoStr) (hne : line ≠ [])
    (hbad : parseJson line = none) :
    readMessage line = some (Except.error parseErrorResponse) ∧
    parseErrorResponse.id = none ∧
    parseErrorResponse.error =
      some { code := -32700, message := ("Parse error").data } := by
  refine ⟨?_, rfl, rfl⟩
  simp [readMessage, hne, hbad]

/-- Witness for C8 at a concrete input: the line `x` is not valid JSON and
is answered with the id-less parse-error response. -/
theorem readMessage_parse_error_witness :
    readMessage (("x").data) = some (Except.error parseErrorResponse) ∧
    parseErrorResponse.id = none ∧
    parseErrorResponse.error =
      some { code := -32700, message := ("Parse error").data } :=
  readMessage_parse_error (("x").data) (by decide) rfl

/-- Counterexample for C8 as stated: the malformed line
`{"jsonrpc": "2.0", "id": 7, "method": "x"` is invalid JSON but plainly
shows the identifier 7 (the claim-side `salvageId` recovers it); the code
nevertheless answers with an identifier-less parse-error response, because
`handleMessages` always passes the constant `nil` identifier. -/
theorem readMessage_id_not_salvaged :
    parseJson malformedLine = none ∧
    salvageId malformedLine = some 7 ∧
    readMessage malformedLine = some (Except.error parseErrorResponse) ∧
    parseErrorResponse.id = none :=
  ⟨rfl, rfl, rfl, rfl⟩

/-- The required-name component of the parameter fold of
`generateInputSchema`: the accumulated list extended by the names of the
required parameters, in order. -/
theorem schemaStep_foldl_required (params : List SwaggerParameter)
    (acc : List (GoStr × JValue) × List GoStr) :
    (params.foldl schemaStep acc).2 =
      acc.2 ++ (params.filter (fun p => p.required)).map (fun p => p.name) := by
  induction params generalizing acc with
  | nil => simp
  | cons p rest ih =>
    simp only [List.foldl_cons, ih]
    cases hp : p.required <;> simp [schemaStep, hp]

/-- C9 (amended): a name is in the `required` array of the generated input
schema exactly when it names a required parameter of the endpoint, or it is
`requestBody` and the endpoint declares a request body with a JSON content
type that carries a `schema` object and is flagged required.  (The original
claim omits the `schema`-object condition; map-iteration order of the
`content` map is modelled as document order.) -/
theorem generateInputSchema_required_iff (endpoint : SwaggerEndpoint) (s : GoStr) :
    s ∈ (generateInputSchema endpoint).required ↔
      ((∃ p ∈ endpoint.parameters, p.required = true ∧ p.name = s) ∨
       (s = ("requestBody").data ∧ jsonBodySchemaRequired endpoint = true)) := by
  unfold generateInputSchema jsonBodySchemaRequired
  cases hrb : requestBodyJsonSchema endpoint.requestBody with
  | none =>
    simp [schemaStep_foldl_required, List.mem_map, List.mem_filter]
    constructor
    · intro ⟨p, ⟨hmem, hreq⟩, hname⟩
      exact ⟨p, hmem, hreq, hname⟩
    · intro ⟨p, hmem, hreq, hname⟩
      exact ⟨p, ⟨hmem, hreq⟩, hname⟩
  | some sb =>
    cases hb : sb.2 with
    | false =>
      simp [hb, schemaStep_foldl_required, List.mem_map, List.mem_filter]
      constructor
      · intro ⟨p, ⟨hmem, hreq⟩, hname⟩
        exact ⟨p, hmem, hreq, hname⟩
      · intro ⟨p, hmem, hreq, hname⟩
        exact ⟨p, ⟨hmem, hreq⟩, hname⟩
    | true =>
      simp [hb, schemaStep_foldl_required, List.mem_append, List.mem_map,
        List.mem_filter]
      constructor
      · intro h
        cases h with
        | inl h =>
          obtain ⟨p, ⟨hmem, hreq⟩, hname⟩ := h
          exact Or.inl ⟨p, hmem, hreq, hname⟩
        | inr h => exact Or.inr h
      · intro h
        cases h with
        | inl h =>
          obtain ⟨p, hmem, hreq, hname⟩ := h
          exact Or.inl ⟨p, ⟨hmem, hreq⟩, hname⟩
        | inr h => exact Or.inr h

/-- Counterexample for C9 as stated: an endpoint declaring a JSON request
body with `required: true` but no `schema` member (so the claim-side
reading `specDeclaresRequiredJsonBody` holds), for which the generated
`required` array nevertheless does not contain `requestBody`. -/
theorem generateInputSchema_requestBody_counterexample :
    specDeclaresRequiredJsonBody endpointBodyNoSchema = true ∧
    ("requestBody").data ∉ (generateInputSchema endpointBodyNoSchema).required := by
  exact ⟨rfl, by decide⟩

/-- The parameter-collection loop of `ExtractEndpoints` appends exactly the
parsed forms of the array items that are objects, in order. -/
theorem appendParsedParams_eq (items : List JValue) (acc : List SwaggerParameter) :
    appendParsedParams acc items =
      acc ++ (items.filterMap jObjFields).map parseParameter := by
  induction items generalizing acc with
  | nil => simp [appendParsedParams]
  | cons j rest ih =>
    cases j <;> simp [appendParsedParams, jObjFields, ih]

/-- C10: for a path entry and an HTTP-method operation, the extracted
endpoint exists and its parameter list is the operation-level `parameters`
array (its object items, in document order) followed by the path-level
`parameters` array (its object items, in document order), with no
deduplication of any kind. -/
theorem extractOperationEndpoint_params (path : GoStr)
    (pathItem : List (GoStr × JValue)) (method : GoStr)
    (operation : List (GoStr × JValue)) (opParams pathParams : List JValue)
    (hm : isHTTPMethod method = true)
    (hop : lookupJ operation (("parameters").data) = some (JValue.arr opParams))
    (hpp : lookupJ pathItem (("parameters").data) = some (JValue.arr pathParams)) :
    ∃ e, extractOperationEndpoint path pathItem method (JValue.obj operation) = some e ∧
      e.parameters =
        (opParams.filterMap jObjFields).map parseParameter ++
        (pathParams.filterMap jObjFields).map parseParameter := by
  unfold extractOperationEndpoint
  rw [hm]
  simp only [Bool.true_eq_false, if_false]
  refine ⟨_, rfl, ?_⟩
  simp only [hop, hpp]
  rw [appendParsedParams_eq, appendParsedParams_eq]
  simp

/-- Witness for C10 at concrete inputs: the same parameter object `q`
declared both at operation level and at path level appears twice in the
extracted parameter list. -/
theorem extractOperationEndpoint_params_witness :
    (∃ e, extractOperationEndpoint (("/p").data) pathItemQ (("get").data)
        (JValue.obj operationQ) = some e ∧
      e.parameters =
        ([paramObjQ].filterMap jObjFields).map parseParameter ++
        ([paramObjQ].filterMap jObjFields).map parseParameter) ∧
    (extractOperationEndpoint (("/p").data) pathItemQ (("get").data)
        (JValue.obj operationQ)).map (fun e => e.parameters.length) = some 2 :=
  ⟨extractOperationEndpoint_params (("/p").data) pathItemQ (("get").data)
      operationQ [paramObjQ] [paramObjQ] rfl rfl rfl, rfl⟩

/-- If some declared-required parameter has no argument, the
parameter-binding loop aborts with the validation error (whatever the
accumulators hold). -/
theorem processParameters_missing (arguments : List (GoStr × JValue))
    (params : List SwaggerParameter)
    (h : ∃ p ∈ params, p.required = true ∧ alistFind arguments p.name = none) :
    ∀ pathParams queryParams headers,
      ∃ pname ploc, processParameters arguments params pathParams queryParams headers =
        Except.error (BuildError.requiredMissing pname ploc) := by
  induction params with
  | nil => simp at h
  | cons p rest ih =>
    intro pathParams queryParams headers
    obtain ⟨q, hq, hreq, hmiss⟩ := h
    cases hfind : alistFind arguments p.name with
    | none =>
      cases hp : p.required with
      | true =>
        exact ⟨p.name, p.location, by simp [processParameters, hfind, hp]⟩
      | false =>
        have hq' : q ∈ rest := by
          cases List.mem_cons.mp hq with
          | inl he => rw [he] at hreq; rw [hp] at hreq; cases hreq
          | inr hr => exact hr
        obtain ⟨n, l, hl⟩ := ih ⟨q, hq', hreq, hmiss⟩ pathParams queryParams headers
        exact ⟨n, l, by simpa [processParameters, hfind, hp] using hl⟩
    | some v =>
      have hq' : q ∈ rest := by
        cases List.mem_cons.mp hq with
        | inl he => rw [he] at hmiss; rw [hmiss] at hfind; cases hfind
        | inr hr => exact hr
      by_cases h1 : p.location = ("path").data
      · obtain ⟨n, l, hl⟩ := ih ⟨q, hq', hreq, hmiss⟩
          (alistSet pathParams p.name (jvalueToString v)) queryParams headers
        exact ⟨n, l, by simpa [processParameters, hfind, h1] using hl⟩
      · by_cases h2 : p.location = ("query").data
        · obtain ⟨n, l, hl⟩ := ih ⟨q, hq', hreq, hmiss⟩
            pathParams (queryParams ++ [(p.name, jvalueToString v)]) headers
          exact ⟨n, l, by simpa [processParameters, hfind, h1, h2] using hl⟩
        · by_cases h3 : p.location = ("header").data
          · obtain ⟨n, l, hl⟩ := ih ⟨q, hq', hreq, hmiss⟩
              pathParams queryParams (alistSet headers p.name (jvalueToString v))
            exact ⟨n, l, by simpa [processParameters, hfind, h1, h2, h3] using hl⟩
          · obtain ⟨n, l, hl⟩ := ih ⟨q, hq', hreq, hmiss⟩ pathParams queryParams headers
            exact ⟨n, l, by simpa [processParameters, hfind, h1, h2, h3] using hl⟩

/-- C7: when any declared-required parameter of the endpoint is absent from
the argument map, the whole execution fails with the validation error
before any network call: the attempt counter is 0 — no HTTP request is
issued for any network behaviour and any client configuration. -/
theorem executeRequest_missing_required (cfg : ClientConfig)
    (outcomes : Nat → AttemptOutcome) (endpoint : SwaggerEndpoint)
    (arguments : List (GoStr × JValue))
    (h : ∃ p ∈ endpoint.parameters, p.required = true ∧
      alistFind arguments p.name = none) :
    ∃ pname ploc, executeRequestM cfg outcomes endpoint arguments =
      (0, Except.error (ExecError.build (BuildError.requiredMissing pname ploc))) := by
  obtain ⟨n, l, hl⟩ := processParameters_missing arguments endpoint.parameters h [] [] []
  exact ⟨n, l, by simp [executeRequestM, buildRequest, hl]⟩

/-- Witness for C7 at concrete inputs: the endpoint with one required `loc`
path parameter, called with no arguments, fails with the validation error
and makes 0 network attempts. -/
theorem executeRequest_missing_required_witness :
    ∃ pname ploc, executeRequestM cfgPlain outcomes200 endpointReqParam [] =
      (0, Except.error (ExecError.build (BuildError.requiredMissing pname ploc))) :=
  executeRequest_missing_required cfgPlain outcomes200 endpointReqParam []
    ⟨paramLocRequired, List.mem_singleton.mpr rfl, rfl, rfl⟩

/-- C3: for a `tools/call` of a registered tool, the JSON-RPC envelope is a
success envelope (no `error` member, a tool result present); the result's
`isError` flag is set exactly when a completed outbound exchange has HTTP
status ≥ 400, and is set whenever the outbound execution fails (transport
failure after retries, or request building) — the envelope never errors for
tool-execution failures. -/
theorem handleCallTool_success_envelope (registry : ToolRegistry)
    (id : Option JValue) (name : GoStr) (arguments : List (GoStr × JValue))
    (tool : GeneratedTool) (cfg : ClientConfig) (outcomes : Nat → AttemptOutcome)
    (h : getTool registry name = some tool) :
    (handleCallTool registry id ⟨name, arguments⟩ cfg outcomes).error = none ∧
    ∃ tr, (handleCallTool registry id ⟨name, arguments⟩ cfg outcomes).result =
        some (MCPResult.callTool tr) ∧
      tr.isError =
        (match (executeRequestM cfg outcomes tool.endpoint arguments).2 with
         | Except.ok resp => decide (400 ≤ resp.statusCode)
         | Except.error _ => true) := by
  simp only [handleCallTool, executeAPICall, h]
  cases hx : (executeRequestM cfg outcomes tool.endpoint arguments).2 with
  | ok resp => exact ⟨rfl, _, rfl, rfl⟩
  | error e => exact ⟨rfl, _, rfl, rfl⟩

/-- Witness for C3 at concrete inputs: the registered tool `t` called over
the all-200 network gets a success envelope whose result is not
error-flagged. -/
theorem handleCallTool_success_envelope_witness :
    (handleCallTool regT none ⟨("t").data, []⟩ cfgPlain outcomes200).error = none ∧
    ∃ tr, (handleCallTool regT none ⟨("t").data, []⟩ cfgPlain outcomes200).result =
        some (MCPResult.callTool tr) ∧
      tr.isError =
        (match (executeRequestM cfgPlain outcomes200 toolT.endpoint []).2 with
         | Except.ok resp => decide (400 ≤ resp.statusCode)
         | Except.error _ => true) :=
  handleCallTool_success_envelope regT none (("t").data) [] toolT cfgPlain
    outcomes200 rfl

/-- The head of a `dropWhile` result never satisfies the predicate. -/
theorem head_dropWhile_not {α : Type} {p : α → Bool} :
    ∀ {l : List α} {c : α}, (l.dropWhile p).head? = some c → p c = false := by
  intro l
  induction l with
  | nil => intro c h; cases h
  | cons a rest ih =>
    intro c h
    by_cases hp : p a
    · rw [List.dropWhile_cons_of_pos hp] at h
      exact ih h
    · rw [List.dropWhile_cons_of_neg hp] at h
      cases h
      exact Bool.of_not_eq_true hp

/-- Membership in a `dropWhile` result implies membership in the input. -/
theorem mem_dropWhile_imp {α : Type} {p : α → Bool} {l : List α} {c : α}
    (h : c ∈ l.dropWhile p) : c ∈ l :=
  (List.dropWhile_sublist p).subset h

/-- Membership in a trimmed string implies membership in the input. -/
theorem mem_goTrimSet_imp {cutset : List Char} {s : GoStr} {c : Char}
    (h : c ∈ goTrimSet cutset s) : c ∈ s := by
  unfold goTrimSet at h
  rw [List.mem_reverse] at h
  have h1 := mem_dropWhile_imp h
  rw [List.mem_reverse] at h1
  exact mem_dropWhile_imp h1

/-- A trim result is a prefix of the left-trimmed input: concretely, some
trailing run can be appended to recover it. -/
theorem goTrimSet_append (cutset : List Char) (s : GoStr) :
    goTrimSet cutset s ++
      ((s.dropWhile (fun c => decide (c ∈ cutset))).reverse.takeWhile
        (fun c => decide (c ∈ cutset))).reverse =
      s.dropWhile (fun c => decide (c ∈ cutset)) := by
  unfold goTrimSet
  have h := List.takeWhile_append_dropWhile
    (p := fun c => decide (c ∈ cutset))
    (l := (s.dropWhile (fun c => decide (c ∈ cutset))).reverse)
  calc _ = (((s.dropWhile (fun c => decide (c ∈ cutset))).reverse.takeWhile
        (fun c => decide (c ∈ cutset)) ++
        (s.dropWhile (fun c => decide (c ∈ cutset))).reverse.dropWhile
        (fun c => decide (c ∈ cutset)))).reverse := by
        rw [List.reverse_append]
    _ = _ := by rw [h, List.reverse_reverse]

/-- The head of a non-empty trim result is not in the cutset. -/
theorem goTrimSet_head_not {cutset : List Char} {s : GoStr} {c : Char}
    (h : (goTrimSet cutset s).head? = some c) : c ∉ cutset := by
  have happ := goTrimSet_append cutset s
  cases ht : goTrimSet cutset s with
  | nil => rw [ht] at h; cases h
  | cons c0 t =>
    rw [ht] at h
    cases h
    have hd : (s.dropWhile (fun x => decide (x ∈ cutset))).head? = some c := by
      rw [ht] at happ
      rw [← happ]
      rfl
    have := head_dropWhile_not hd
    simpa using this

/-- Model of `replaceInvalid` yields only class characters. -/
theorem replaceInvalid_all (s : GoStr) : (replaceInvalid s).all isClassChar = true := by
  rw [List.all_eq_true]
  intro x hx
  rw [replaceInvalid, List.mem_map] at hx
  obtain ⟨c, _, rfl⟩ := hx
  by_cases hc : isClassChar c
  · simp [hc]
  · simp [hc]
    decide

/-- Model of `collapseGo` preserves the all-class property. -/
theorem collapseGo_all (s : GoStr) :
    ∀ b, s.all isClassChar = true → (collapseGo b s).all isClassChar = true := by
  induction s with
  | nil => intro b _; rfl
  | cons c rest ih =>
    intro b hall
    rw [List.all_cons, Bool.and_eq_true] at hall
    by_cases hc : c = '_'
    · cases b with
      | true => simpa [collapseGo, hc] using ih true hall.2
      | false =>
        rw [show collapseGo false (c :: rest) = '_' :: collapseGo true rest from by
          simp [collapseGo, hc]]
        rw [List.all_cons, Bool.and_eq_true]
        exact ⟨by decide, ih true hall.2⟩
    · simp only [collapseGo, if_neg hc]
      rw [List.all_cons, Bool.and_eq_true]
      exact ⟨hall.1, ih false hall.2⟩

/-- The sanitize core yields only class characters. -/
theorem sanitizeCore_all (s : GoStr) : (sanitizeCore s).all isClassChar = true := by
  rw [List.all_eq_true]
  intro c hc
  have h1 : c ∈ collapseUnderscores (replaceInvalid (goToLower s)) :=
    mem_goTrimSet_imp hc
  have h2 := collapseGo_all (replaceInvalid (goToLower s)) false
    (replaceInvalid_all (goToLower s))
  rw [List.all_eq_true] at h2
  exact h2 c h1

/-- Model of `sanitizeToolName` output: never empty. -/
theorem sanitize_ne_nil (s : GoStr) : sanitizeToolName s ≠ [] := by
  unfold sanitizeToolName
  by_cases h : sanitizeCore s = []
  · simp [h]
  · rw [if_neg h]
    exact h

/-- Model of `sanitizeToolName` output: only class characters. -/
theorem sanitize_all (s : GoStr) : (sanitizeToolName s).all isClassChar = true := by
  unfold sanitizeToolName
  by_cases h : sanitizeCore s = []
  · simp only [h, if_pos]
    decide
  · simpa [h] using sanitizeCore_all s

/-- Model of `sanitizeToolName` output: never starts with an underscore. -/
theorem sanitize_head_ne (s : GoStr) :
    ∀ c, (sanitizeToolName s).head? = some c → c ≠ '_' := by
  intro c hc
  unfold sanitizeToolName at hc
  by_cases h : sanitizeCore s = []
  · rw [if_pos h] at hc
    cases hc
    decide
  · rw [if_neg h] at hc
    have := @goTrimSet_head_not ['_'] (collapseUnderscores (replaceInvalid (goToLower s)))
      c (by rw [← sanitizeCore]; exact hc)
    simpa using this

/-- A split is never the empty list of parts. -/
theorem splitOnChar_ne_nil (sep : Char) (s : GoStr) : splitOnChar sep s ≠ [] := by
  cases s with
  | nil => simp [splitOnChar]
  | cons c rest =>
    unfold splitOnChar
    cases splitOnChar sep rest with
    | nil => simp
    | cons p ps =>
      by_cases hc : c = sep <;> simp [hc]

/-- Every character of every part of a split is a character of the input. -/
theorem splitOnChar_mem_subset {sep : Char} :
    ∀ {s : GoStr} {p : GoStr}, p ∈ splitOnChar sep s → ∀ {c : Char}, c ∈ p → c ∈ s := by
  intro s
  induction s with
  | nil =>
    intro p hp c hc
    simp [splitOnChar] at hp
    rw [hp] at hc
    cases hc
  | cons a rest ih =>
    intro p hp c hc
    cases hsr : splitOnChar sep rest with
    | nil => exact absurd hsr (splitOnChar_ne_nil sep rest)
    | cons p0 ps =>
      have hp' : p ∈ (if a = sep then [] :: p0 :: ps else (a :: p0) :: ps) := by
        unfold splitOnChar at hp
        rw [hsr] at hp
        exact hp
      by_cases ha : a = sep
      · rw [if_pos ha] at hp'
        cases List.mem_cons.mp hp' with
        | inl he => rw [he] at hc; cases hc
        | inr hr =>
          right
          exact ih (by rw [hsr]; exact hr) hc
      · rw [if_neg ha] at hp'
        cases List.mem_cons.mp hp' with
        | inl he =>
          rw [he] at hc
          cases List.mem_cons.mp hc with
          | inl h0 => rw [h0]; left
          | inr h0 =>
            right
            exact ih (by rw [hsr]; exact List.mem_cons_self p0 ps) h0
        | inr hr =>
          right
          exact ih (by rw [hsr]; exact List.mem_cons.mpr (Or.inr hr)) hc

/-- Splitting a string whose head is not the separator yields a first part
carrying that head. -/
theorem splitOnChar_head_cons {sep c : Char} {rest : GoStr} (hc : c ≠ sep) :
    ∃ t ps, splitOnChar sep (c :: rest) = (c :: t) :: ps := by
  unfold splitOnChar
  cases hsr : splitOnChar sep rest with
  | nil => exact absurd hsr (splitOnChar_ne_nil sep rest)
  | cons p ps => exact ⟨p, ps, by simp [hc]⟩

/-- Characters of a join are the separator or characters of the parts. -/
theorem joinSep_mem {sep : Char} :
    ∀ {l : List GoStr} {c : Char}, c ∈ joinSep sep l → c = sep ∨ ∃ p ∈ l, c ∈ p := by
  intro l
  induction l with
  | nil => intro c hc; cases hc
  | cons p ps ih =>
    intro c hc
    cases ps with
    | nil =>
      simp only [joinSep] at hc
      exact Or.inr ⟨p, List.mem_cons_self p [], hc⟩
    | cons q qs =>
      simp only [joinSep] at hc
      cases List.mem_append.mp hc with
      | inl h => exact Or.inr ⟨p, List.mem_cons_self _ _, h⟩
      | inr h =>
        cases List.mem_cons.mp h with
        | inl h0 => exact Or.inl h0
        | inr h0 =>
          cases ih h0 with
          | inl h1 => exact Or.inl h1
          | inr h1 =>
            obtain ⟨r, hr, hcr⟩ := h1
            exact Or.inr ⟨r, List.mem_cons.mpr (Or.inr hr), hcr⟩

/-- The head of a join is the head of its non-empty first part. -/
theorem joinSep_head {sep : Char} {p : GoStr} {ps : List GoStr} (hp : p ≠ []) :
    (joinSep sep (p :: ps)).head? = p.head? := by
  cases ps with
  | nil => rfl
  | cons q qs =>
    cases p with
    | nil => exact absurd rfl hp
    | cons c t => rfl

/-- The last element of a non-empty list is a member. -/
theorem getLastD_mem {α : Type} :
    ∀ (l : List α) (d : α), l ≠ [] → l.getLastD d ∈ l := by
  intro l
  induction l with
  | nil => intro d h; exact absurd rfl h
  | cons a rest ih =>
    intro d _
    cases rest with
    | nil => simp [List.getLastD]
    | cons b t =>
      rw [List.getLastD_cons]
      exact List.mem_cons.mpr (Or.inr (ih b (by simp)))

/-- Every dictionary abbreviation is short, non-empty, in the name class,
and does not start with an underscore. -/
theorem pathAbbreviations_entries :
    ∀ kv ∈ pathAbbreviations, kv.2.length ≤ 8 ∧ kv.2 ≠ [] ∧
      kv.2.all isClassChar = true ∧ kv.2.head? ≠ some '_' := by
  decide

/-- Model of `abbreviatePathPart` output is at most 8 characters. -/
theorem abbrevPart_len (p : GoStr) : (abbreviatePathPart p).length ≤ 8 := by
  unfold abbreviatePathPart
  cases hf : pathAbbreviations.find? (fun kv => kv.1 == goToLower p) with
  | some kv =>
    exact (pathAbbreviations_entries kv (List.mem_of_find?_eq_some hf)).1
  | none =>
    by_cases hl : p.length > 8
    · simp only [if_pos hl]
      exact List.length_take_le 8 p
    · simp only [if_neg hl]
      omega

/-- Model of `abbreviatePathPart` of a non-empty part is non-empty. -/
theorem abbrevPart_ne (p : GoStr) (hp : p ≠ []) : abbreviatePathPart p ≠ [] := by
  unfold abbreviatePathPart
  cases hf : pathAbbreviations.find? (fun kv => kv.1 == goToLower p) with
  | some kv =>
    exact (pathAbbreviations_entries kv (List.mem_of_find?_eq_some hf)).2.1
  | none =>
    by_cases hl : p.length > 8
    · simp only [if_pos hl]
      have : (p.take 8).length = 8 := by
        rw [List.length_take]
        omega
      intro hnil
      rw [hnil] at this
      cases this
    · simp only [if_neg hl]
      exact hp

/-- Model of `abbreviatePathPart` stays inside the name class. -/
theorem abbrevPart_all (p : GoStr) (hp : p.all isClassChar = true) :
    (abbreviatePathPart p).all isClassChar = true := by
  unfold abbreviatePathPart
  cases hf : pathAbbreviations.find? (fun kv => kv.1 == goToLower p) with
  | some kv =>
    exact (pathAbbreviations_entries kv (List.mem_of_find?_eq_some hf)).2.2.1
  | none =>
    rw [List.all_eq_true] at hp
    by_cases hl : p.length > 8
    · simp only [if_pos hl]
      rw [List.all_eq_true]
      intro c hc
      exact hp c (List.take_subset 8 p hc)
    · simp only [if_neg hl]
      rw [List.all_eq_true]
      exact hp

/-- Model of `abbreviatePathPart` of a part not starting with an underscore does not
start with an underscore. -/
theorem abbrevPart_head (p : GoStr) (hhd : ∀ c, p.head? = some c → c ≠ '_') :
    (abbreviatePathPart p).head? ≠ some '_' := by
  unfold abbreviatePathPart
  cases hf : pathAbbreviations.find? (fun kv => kv.1 == goToLower p) with
  | some kv =>
    exact (pathAbbreviations_entries kv (List.mem_of_find?_eq_some hf)).2.2.2
  | none =>
    by_cases hl : p.length > 8
    · simp only [if_pos hl]
      cases p with
      | nil => simp at hl
      | cons c t =>
        intro h
        have h0 : (List.take 8 (c :: t)).head? = some c := rfl
        rw [h0] at h
        cases h
        exact hhd '_' rfl rfl
    · simp only [if_neg hl]
      intro h
      exact hhd '_' h rfl

/-- Trimming one trailing character never lengthens a string. -/
theorem trimSuffixChar_len (ch : Char) (s : GoStr) :
    (trimSuffixChar ch s).length ≤ s.length := by
  unfold trimSuffixChar
  by_cases h : s.getLast? = some ch
  · simp only [if_pos h]
    rw [List.length_dropLast]
    omega
  · simp [h]

/-- Trimming one trailing character preserves the all-class property. -/
theorem trimSuffixChar_all (ch : Char) (s : GoStr) (hs : s.all isClassChar = true) :
    (trimSuffixChar ch s).all isClassChar = true := by
  unfold trimSuffixChar
  rw [List.all_eq_true] at hs
  by_cases h : s.getLast? = some ch
  · simp only [if_pos h]
    rw [List.all_eq_true]
    intro c hc
    exact hs c (List.dropLast_subset s hc)
  · simpa [h, List.all_eq_true] using hs

/-- Trimming one trailing `ch` from a string whose head is not `ch` leaves
it non-empty. -/
theorem trimSuffixChar_ne (ch : Char) (s : GoStr) {c : Char}
    (hhd : s.head? = some c) (hc : c ≠ ch) : trimSuffixChar ch s ≠ [] := by
  unfold trimSuffixChar
  split
  · next hlast =>
      cases s with
      | nil => cases hhd
      | cons a t =>
        cases hhd
        cases t with
        | nil =>
          simp at hlast
          exact absurd hlast hc
        | cons b u =>
          intro hnil
          have hlen : ((c :: b :: u).dropLast).length = 0 := by rw [hnil]; rfl
          rw [List.length_dropLast] at hlen
          simp at hlen
  · cases s with
    | nil => cases hhd
    | cons a t => simp

/-- The head of a `take` with positive count is the head of the list. -/
theorem head?_take {α : Type} (l : List α) {n : Nat} (hn : 1 ≤ n) :
    (l.take n).head? = l.head? := by
  cases l with
  | nil => simp
  | cons a t =>
    cases n with
    | zero => omega
    | succ m => simp [List.take_cons]

/-- Taking a prefix preserves the all-class property. -/
theorem all_take_isClass (l : GoStr) (n : Nat) (h : l.all isClassChar = true) :
    (l.take n).all isClassChar = true := by
  rw [List.all_eq_true] at h ⊢
  intro c hc
  exact h c (List.take_subset n l hc)

/-- The abbreviated parts of a non-empty name not starting with an
underscore: the first part is non-empty and does not start with an
underscore. -/
theorem abbrevParts_shape (S : GoStr) (hne : S ≠ [])
    (hhd : ∀ c, S.head? = some c → c ≠ '_') :
    ∃ q qs, abbrevPartsOf S = q :: qs ∧ q ≠ [] ∧ q.head? ≠ some '_' := by
  cases S with
  | nil => exact absurd rfl hne
  | cons c t =>
    have hc : c ≠ '_' := hhd c rfl
    obtain ⟨t0, ps, hsplit⟩ := @splitOnChar_head_cons '_' c t hc
    refine ⟨abbreviatePathPart (c :: t0), ps.map abbreviatePathPart, ?_, ?_, ?_⟩
    · rw [abbrevPartsOf, hsplit, List.map_cons]
    · exact abbrevPart_ne (c :: t0) (by simp)
    · exact abbrevPart_head (c :: t0) (by intro x hx; cases hx; exact hc)

/-- Every abbreviated part of a class-only name is short and class-only. -/
theorem abbrevParts_mem (S : GoStr) (hall : S.all isClassChar = true) :
    ∀ q ∈ abbrevPartsOf S, q.length ≤ 8 ∧ q.all isClassChar = true := by
  intro q hq
  rw [abbrevPartsOf, List.mem_map] at hq
  obtain ⟨p, hp, rfl⟩ := hq
  have hpall : p.all isClassChar = true := by
    rw [List.all_eq_true]
    intro c hc
    rw [List.all_eq_true] at hall
    exact hall c (splitOnChar_mem_subset hp hc)
  exact ⟨abbrevPart_len p, abbrevPart_all p hpall⟩

/-- The re-joined abbreviated name is class-only. -/
theorem abbrevJoined_all (S : GoStr) (hall : S.all isClassChar = true) :
    (abbrevJoined S).all isClassChar = true := by
  rw [List.all_eq_true]
  intro c hc
  cases joinSep_mem hc with
  | inl h => rw [h]; decide
  | inr h =>
    obtain ⟨q, hq, hcq⟩ := h
    have := (abbrevParts_mem S hall q hq).2
    rw [List.all_eq_true] at this
    exact this c hcq

/-- The joined leading segments are class-only. -/
theorem abbrevFirstRaw_all (S : GoStr) (hall : S.all isClassChar = true) :
    (abbrevFirstRaw S).all isClassChar = true := by
  rw [List.all_eq_true]
  intro c hc
  cases joinSep_mem hc with
  | inl h => rw [h]; decide
  | inr h =>
    obtain ⟨q, hq, hcq⟩ := h
    have hq' : q ∈ abbrevPartsOf S := List.dropLast_subset _ hq
    have := (abbrevParts_mem S hall q hq').2
    rw [List.all_eq_true] at this
    exact this c hcq

/-- The head of the re-joined abbreviated name exists and is not an
underscore. -/
theorem abbrevJoined_head (S : GoStr) (hne : S ≠ [])
    (hhd : ∀ c, S.head? = some c → c ≠ '_') :
    ∃ c, (abbrevJoined S).head? = some c ∧ c ≠ '_' := by
  obtain ⟨q, qs, hparts, hqne, hqhd⟩ := abbrevParts_shape S hne hhd
  rw [abbrevJoined, hparts]
  rw [joinSep_head hqne]
  cases hq : q.head? with
  | none =>
    cases q with
    | nil => exact absurd rfl hqne
    | cons a t => cases hq
  | some c =>
    refine ⟨c, rfl, ?_⟩
    intro h
    rw [h] at hq
    exact hqhd hq

/-- The final abbreviated segment is short when the name is class-only. -/
theorem abbrevLastPart_len (S : GoStr)
    (hall : S.all isClassChar = true) : (abbrevLastPart S).length ≤ 8 := by
  have hpne : abbrevPartsOf S ≠ [] := by
    rw [abbrevPartsOf]
    intro h
    exact splitOnChar_ne_nil '_' S (List.map_eq_nil_iff.mp h)
  have hmem : (abbrevPartsOf S).getLastD [] ∈ abbrevPartsOf S :=
    getLastD_mem (abbrevPartsOf S) [] hpne
  exact (abbrevParts_mem S hall _ hmem).1

/-- The final abbreviated segment is class-only. -/
theorem abbrevLastPart_all (S : GoStr)
    (hall : S.all isClassChar = true) :
    (abbrevLastPart S).all isClassChar = true := by
  have hpne : abbrevPartsOf S ≠ [] := by
    rw [abbrevPartsOf]
    intro h
    exact splitOnChar_ne_nil '_' S (List.map_eq_nil_iff.mp h)
  have hmem : (abbrevPartsOf S).getLastD [] ∈ abbrevPartsOf S :=
    getLastD_mem (abbrevPartsOf S) [] hpne
  exact (abbrevParts_mem S hall _ hmem).2

/-- The truncated leading segments fit in the available space. -/
theorem abbrevFirstStr_len (S : GoStr) (m : Nat) :
    (abbrevFirstStr S m).length ≤ abbrevSpaceForFirst S m := by
  unfold abbrevFirstStr
  by_cases h : (abbrevFirstRaw S).length > abbrevSpaceForFirst S m
  · simp only [if_pos h]
    have h1 := trimSuffixChar_len '_' ((abbrevFirstRaw S).take (abbrevSpaceForFirst S m))
    have h2 := List.length_take_le (abbrevSpaceForFirst S m) (abbrevFirstRaw S)
    omega
  · simp only [if_neg h]
    omega

/-- The truncated leading segments are class-only. -/
theorem abbrevFirstStr_all (S : GoStr) (m : Nat) (hall : S.all isClassChar = true) :
    (abbrevFirstStr S m).all isClassChar = true := by
  unfold abbrevFirstStr
  by_cases h : (abbrevFirstRaw S).length > abbrevSpaceForFirst S m
  · simp only [if_pos h]
    exact trimSuffixChar_all '_' _ (all_take_isClass _ _ (abbrevFirstRaw_all S hall))
  · simp only [if_neg h]
    exact abbrevFirstRaw_all S hall

/-- The key shape lemma for `abbreviateToolName`: for a sanitized-looking
input (non-empty, class-only, not starting with an underscore) and a bound
of at least 9, the result fits the bound, is non-empty, and is
class-only. -/
theorem abbreviateToolName_props (S : GoStr) (m : Nat) (hne : S ≠ [])
    (hall : S.all isClassChar = true)
    (hhd : ∀ c, S.head? = some c → c ≠ '_') (hm : 9 ≤ m) :
    (abbreviateToolName S m).length ≤ m ∧ abbreviateToolName S m ≠ [] ∧
    (abbreviateToolName S m).all isClassChar = true := by
  unfold abbreviateToolName
  by_cases h1 : S.length ≤ m
  · simp only [if_pos h1]
    exact ⟨h1, hne, hall⟩
  simp only [if_neg h1]
  by_cases h2 : (abbrevJoined S).length ≤ m
  · simp only [if_pos h2]
    refine ⟨h2, ?_, abbrevJoined_all S hall⟩
    obtain ⟨c, hc, _⟩ := abbrevJoined_head S hne hhd
    intro hnil
    rw [hnil] at hc
    cases hc
  simp only [if_neg h2]
  by_cases h3 : (abbrevPartsOf S).length > 2
  · simp only [if_pos h3]
    have hlast := abbrevLastPart_len S hall
    have hfirst := abbrevFirstStr_len S m
    refine ⟨?_, by simp, ?_⟩
    · have hsp : abbrevSpaceForFirst S m = m - (abbrevLastPart S).length - 1 := rfl
      rw [List.length_append, List.length_cons]
      omega
    · rw [List.all_append, Bool.and_eq_true]
      refine ⟨abbrevFirstStr_all S m hall, ?_⟩
      rw [List.all_cons, Bool.and_eq_true]
      exact ⟨by decide, abbrevLastPart_all S hall⟩
  · simp only [if_neg h3]
    obtain ⟨c, hc, hcne⟩ := abbrevJoined_head S hne hhd
    refine ⟨?_, ?_, ?_⟩
    · have h4 := trimSuffixChar_len '_' ((abbrevJoined S).take m)
      have h5 := List.length_take_le m (abbrevJoined S)
      omega
    · refine trimSuffixChar_ne '_' _ ?_ hcne
      rw [head?_take (abbrevJoined S) (by omega : 1 ≤ m)]
      exact hc
    · exact trimSuffixChar_all '_' _ (all_take_isClass _ _ (abbrevJoined_all S hall))

/-- The pre-clamping base name is a sanitize output: non-empty, class-only,
not starting with an underscore. -/
theorem baseNameOf_props (endpoint : SwaggerEndpoint) :
    baseNameOf endpoint ≠ [] ∧ (baseNameOf endpoint).all isClassChar = true ∧
    ∀ c, (baseNameOf endpoint).head? = some c → c ≠ '_' := by
  unfold baseNameOf
  by_cases h : endpoint.operationID ≠ []
  · simp only [if_pos h]
    exact ⟨sanitize_ne_nil _, sanitize_all _, sanitize_head_ne _⟩
  · simp only [if_neg h]
    unfold generateCompactPathName
    exact ⟨sanitize_ne_nil _, sanitize_all _, sanitize_head_ne _⟩

/-- For a version that is empty or class-only with at most 53 characters,
the `_v<version>` suffix is class-only and at most 55 characters long. -/
theorem versionSuffix_props (docInfo : SwaggerDocumentInfo)
    (hver : docInfo.version = [] ∨
      (docInfo.version.all isClassChar = true ∧ docInfo.version.length ≤ 53)) :
    (versionSuffixOf docInfo).all isClassChar = true ∧
    (versionSuffixOf docInfo).length ≤ 55 := by
  unfold versionSuffixOf
  cases hver with
  | inl h => simp [h]
  | inr h =>
    by_cases hv : docInfo.version ≠ []
    · simp only [if_pos hv]
      constructor
      · rw [List.all_cons, Bool.and_eq_true]
        refine ⟨by decide, ?_⟩
        rw [List.all_cons, Bool.and_eq_true]
        exact ⟨by decide, h.1⟩
      · rw [List.length_cons, List.length_cons]
        omega
    · simp [hv]

/-- C2 (amended): for every endpoint without an `x-mcp-tool-name` override
and every document info whose version is empty, or within `[a-z0-9_]*` and
at most 53 characters, the generated tool name is at most 64 characters
long and matches `[a-z0-9_]+` (non-empty, class-only).  (The original claim
fails without these hypotheses: the override is returned verbatim, and the
version string is embedded unsanitized.) -/
theorem generateToolName_length_charset (endpoint : SwaggerEndpoint)
    (docInfo : SwaggerDocumentInfo)
    (hmcp : endpoint.mcpToolName = [])
    (hver : docInfo.version = [] ∨
      (docInfo.version.all isClassChar = true ∧ docInfo.version.length ≤ 53)) :
    (generateToolName endpoint docInfo).length ≤ 64 ∧
    generateToolName endpoint docInfo ≠ [] ∧
    (generateToolName endpoint docInfo).all isClassChar = true := by
  have hgen : generateToolName endpoint docInfo =
      generateToolNameGenerated endpoint docInfo := by
    simp [generateToolName, hmcp]
  rw [hgen]
  obtain ⟨hbne, hball, hbhd⟩ := baseNameOf_props endpoint
  obtain ⟨hsall, hslen⟩ := versionSuffix_props docInfo hver
  have havail : 9 ≤ 64 - (versionSuffixOf docInfo).length := by omega
  have hclamp : (baseNameClamped endpoint docInfo).length ≤
        64 - (versionSuffixOf docInfo).length ∧
      baseNameClamped endpoint docInfo ≠ [] ∧
      (baseNameClamped endpoint docInfo).all isClassChar = true := by
    unfold baseNameClamped
    by_cases h : (baseNameOf endpoint).length > 64 - (versionSuffixOf docInfo).length
    · simp only [if_pos h]
      exact abbreviateToolName_props _ _ hbne hball hbhd havail
    · simp only [if_neg h]
      exact ⟨by omega, hbne, hball⟩
  have hfinlen : (finalNameOf endpoint docInfo).length ≤ 64 := by
    unfold finalNameOf
    rw [List.length_append]
    omega
  unfold generateToolNameGenerated
  rw [if_neg (by omega : ¬ (finalNameOf endpoint docInfo).length > 64)]
  refine ⟨hfinlen, ?_, ?_⟩
  · unfold finalNameOf
    intro h
    exact hclamp.2.1 (List.append_eq_nil.mp h).1
  · unfold finalNameOf
    rw [List.all_append, Bool.and_eq_true]
    exact ⟨hclamp.2.2, hsall⟩

/-- Witness for C2 at concrete inputs: the endpoint `GET /a/b` with version
`1` gives a ≤64-character `[a-z0-9_]+` name. -/
theorem generateToolName_length_charset_witness :
    (generateToolName endpointAB docV1).length ≤ 64 ∧
    generateToolName endpointAB docV1 ≠ [] ∧
    (generateToolName endpointAB docV1).all isClassChar = true :=
  generateToolName_length_charset endpointAB docV1 rfl
    (Or.inr ⟨by decide, by decide⟩)

/-- Counterexample for C2 as stated: the perfectly ordinary document
version `1.0` is appended to the name unsanitized, so `GET /x` yields the
name `x_get_v1.0`, which does not match `[a-z0-9_]+` (it contains a dot). -/
theorem generateToolName_charset_counterexample :
    generateToolName emptyEndpoint docV10 = ("x_get_v1.0").data ∧
    (generateToolName emptyEndpoint docV10).all isClassChar = false :=
  ⟨rfl, rfl⟩
